import Mathlib

/-! SF2LV2 synthesizer plugin runtime: dispatch and bookkeeping layer

A shallow embedding of `src/sf2lv2/src/synth_plugin.c`.

* The synthesis engine (FluidSynth) is an external collaborator.  Every call
  into it is recorded, in program order, as a `Call`; a function of the
  plugin returns the new plugin state together with the list of calls made.
* A C `float`/`double` holding a finite value is a rational number.  An
  arithmetic operation is the exact operation followed by IEEE-754
  round-to-nearest-even (`fp_round`).
* The six control ports and the six stored previous values are compared by
  `run` with the C operator `!=`, which is defined for every `float`.  They
  are a `CFloat`: a finite value, an infinity or NaN, and `CFloat.ne` is
  that operator.  The conversion of an infinity or a NaN to `int` has no
  defined behaviour in C; the model sends 0 for it, and what is proved of
  such a port is that a call is sent, not which value it carries.
* The program port and the level port hold finite values: `run` converts the
  program port to `int` before it compares anything, which C defines for
  finite values only.
* A host port is an `Option`: `none` is the null pointer of an unconnected
  port, `some v` a connected port whose buffer holds `v` in this cycle.
-/

namespace SF2LV2

/-! ## Arithmetic of the C types -/

/-- Round a rational to the nearest integer, a tie going to the even one. -/
def rne (r : ℚ) : Int :=
  let f := ⌊r⌋
  let d := r - f
  if d < 1/2 then f
  else if 1/2 < d then f + 1
  else if f % 2 = 0 then f else f + 1

/-- Floor of the base-two logarithm of the magnitude of a non-zero rational. -/
def ilog2 (q : ℚ) : Int :=
  let k : Int := (q.num.natAbs.log2 : Int) - (q.den.log2 : Int)
  if |q| < (2 : ℚ) ^ k then k - 1 else k

/-- IEEE-754 round-to-nearest-even of an exact result to a binary format with
`prec` significand bits whose least subnormal exponent is `emin`. -/
def fp_round (prec : Nat) (emin : Int) (q : ℚ) : ℚ :=
  if q = 0 then 0
  else
    let s := max (ilog2 q - ((prec : Int) - 1)) emin
    (rne (q / (2 : ℚ) ^ s) : ℚ) * (2 : ℚ) ^ s

/-- Rounding to C `float` (binary32). -/
def f32 (q : ℚ) : ℚ := fp_round 24 (-149) q

/-- Rounding to C `double` (binary64). -/
def f64 (q : ℚ) : ℚ := fp_round 53 (-1074) q

/-- The C conversion `(int)x` of a floating value: the fractional part is
discarded (truncation toward zero).  C defines it only when the result fits
an `int`. -/
def c_int (q : ℚ) : Int := if 0 ≤ q then ⌊q⌋ else ⌈q⌉

/-- A value of C type `float` as a control port or a stored previous value
holds it: a finite value, an infinity of either sign, or NaN. -/
inductive CFloat where
  | finite (q : ℚ)
  | inf (negative : Bool)
  | nan
deriving DecidableEq

/-- The C comparison `a != b` on `float`: finite values differ when they are
not the same number (so +0 and -0 do not differ), infinities when their signs
differ, a finite value always differs from an infinity; a NaN differs from
every value, itself included. -/
def CFloat.ne : CFloat → CFloat → Bool
  | .finite a, .finite b => decide (a ≠ b)
  | .inf s, .inf t => decide (s ≠ t)
  | _, _ => true

/-! ## Data model -/

/-- Size of the scratch buffers: `BUFFER_SIZE`. -/
def BUFFER_SIZE : Nat := 64

/-- Controller number `CC_CUTOFF`. -/
def CC_CUTOFF : Int := 74
/-- Controller number `CC_RESONANCE`. -/
def CC_RESONANCE : Int := 71
/-- Controller number `CC_ATTACK`. -/
def CC_ATTACK : Int := 73
/-- Controller number `CC_DECAY`. -/
def CC_DECAY : Int := 75
/-- Controller number `CC_SUSTAIN`. -/
def CC_SUSTAIN : Int := 70
/-- Controller number `CC_RELEASE`. -/
def CC_RELEASE : Int := 72

/-- FluidSynth's failure code `FLUID_FAILED`. -/
def FLUID_FAILED : Int := -1

/-- Bank/program pair of a preset: `BankProgram`. -/
structure BankProgram where
  bank : Int
  prog : Int
deriving DecidableEq, Repr

/-- What `load_soundfont` observes of the engine and of the allocator:
the result of `fluid_synth_sfload`, whether `fluid_synth_get_sfont` returns a
handle, whether `fluid_sfont_get_preset` finds a preset at (bank, program),
and whether `calloc` of that many table entries returns a non-null pointer. -/
structure SoundFont where
  sfload : Int
  has_sfont : Bool
  get_preset : Nat → Nat → Bool
  calloc_ok : Nat → Bool

/-- The fields of `Plugin` that the dispatch layer reads or writes.  A null
`programs` pointer is the empty list. -/
structure Plugin where
  midi_Event : Nat
  current_program : Int
  programs : List BankProgram
  sfont_id : Int
  program_count : Int
  prev_cutoff : CFloat
  prev_resonance : CFloat
  prev_attack : CFloat
  prev_decay : CFloat
  prev_sustain : CFloat
  prev_release : CFloat
deriving DecidableEq

/-! ## Preset catalog: `load_soundfont` -/

/-- First pass of `load_soundfont`: count the presets, bank 0..128 outside,
program 0..127 inside. -/
def count_pass (get_preset : Nat → Nat → Bool) : Nat :=
  (List.range 129).foldl (fun preset_count bank =>
    (List.range 128).foldl (fun preset_count prog =>
      if get_preset bank prog then preset_count + 1 else preset_count)
      preset_count) 0

/-- Second pass of `load_soundfont`: store bank and program of each preset at
the running index `idx`.  The state is `(idx, programs)`.  A store at an index
beyond the table is dropped (C leaves it undefined). -/
def fill_pass (get_preset : Nat → Nat → Bool) (programs : List BankProgram) :
    Nat × List BankProgram :=
  (List.range 129).foldl (fun st bank =>
    (List.range 128).foldl (fun st prog =>
      if get_preset bank prog then
        (st.1 + 1, st.2.set st.1 { bank := (bank : Int), prog := (prog : Int) })
      else st)
      st) (0, programs)

/-- Load the sound bank and build the preset table: `load_soundfont`.  Returns
the value returned by the C function and the plugin as it leaves it. -/
def load_soundfont (sf : SoundFont) (plugin : Plugin) : Int × Plugin :=
  let plugin := { plugin with sfont_id := sf.sfload }
  if plugin.sfont_id = FLUID_FAILED then (-1, plugin)
  else if !sf.has_sfont then (-1, plugin)
  else
    let preset_count := count_pass sf.get_preset
    let plugin := { plugin with program_count := (preset_count : Int) }
    if !sf.calloc_ok preset_count then (-1, { plugin with programs := [] })
    else
      let plugin :=
        { plugin with programs := List.replicate preset_count { bank := 0, prog := 0 } }
      let filled := fill_pass sf.get_preset plugin.programs
      (plugin.sfont_id, { plugin with programs := filled.2 })

/-- The (bank, program) addresses in scan order (proof device). -/
def preset_grid : List (Nat × Nat) :=
  (List.range 129).flatMap (fun bank => (List.range 128).map (fun prog => (bank, prog)))

/-- Lexicographic order on bank/program pairs. -/
def BankProgram.lexLt (a b : BankProgram) : Prop :=
  a.bank < b.bank ∨ (a.bank = b.bank ∧ a.prog < b.prog)

/-! ## Calls that leave the plugin -/

/-- A call made by the plugin, recorded in program order: the FluidSynth
functions it uses (`fluid_synth_all_notes_off`, `fluid_synth_all_sounds_off`,
`fluid_synth_cc`, `fluid_synth_bank_select`, `fluid_synth_program_change`,
`fluid_synth_set_gain`, `fluid_synth_noteon`, `fluid_synth_noteoff`,
`fluid_synth_pitch_bend`, `fluid_synth_write_float` into the scratch buffers)
and the two `memcpy` calls into the host's output buffers, whose offset and
length are counted in frames. -/
inductive Call where
  | all_notes_off (chan : Int)
  | all_sounds_off (chan : Int)
  | cc (chan ctrl val : Int)
  | bank_select (chan bank : Int)
  | program_change (chan prog : Int)
  | set_gain (level : ℚ)
  | noteon (chan key vel : Int)
  | noteoff (chan key : Int)
  | pitch_bend (chan val : Int)
  | write_float (len : Nat)
  | memcpy_out_l (offset len : Nat)
  | memcpy_out_r (offset len : Nat)
deriving DecidableEq

/-- Whether a call is `fluid_synth_cc` (statement device). -/
def Call.is_cc : Call → Bool
  | .cc _ _ _ => true
  | _ => false

/-- Whether a call is `fluid_synth_cc` to controller `ctrl` (statement device). -/
def Call.is_cc_to (ctrl : Int) : Call → Bool
  | .cc _ c _ => c = ctrl
  | _ => false

/-- Whether a call is `fluid_synth_write_float` (statement device). -/
def Call.is_render : Call → Bool
  | .write_float _ => true
  | _ => false

/-- An event of the input sequence as `run` reads it: the atom type
`ev->body.type` and the first three bytes of the body, `msg[0..2]`. -/
structure Event where
  body_type : Nat
  msg0 : Nat
  msg1 : Nat
  msg2 : Nat
deriving DecidableEq

/-- What the host has connected for one cycle: the events of `events_in` in
buffer order and the value behind each control port pointer (`none` for a
null pointer). -/
structure Ports where
  events_in : List Event
  level_port : Option ℚ
  program_port : Option ℚ
  cutoff_port : Option CFloat
  resonance_port : Option CFloat
  attack_port : Option CFloat
  decay_port : Option CFloat
  sustain_port : Option CFloat
  release_port : Option CFloat

/-! ## Program change: `handle_program_change` -/

/-- The calls of `handle_program_change` (it changes no field of the plugin).
A read of `programs[program]` beyond the table, undefined in C, yields the
zero entry. -/
def handle_program_change (plugin : Plugin) (program : Int) : List Call :=
  if program < 0 ∨ program ≥ plugin.program_count then []
  else
    let bank := (plugin.programs.getD program.toNat { bank := 0, prog := 0 }).bank
    let prog := (plugin.programs.getD program.toNat { bank := 0, prog := 0 }).prog
    [ Call.all_notes_off (-1),
      Call.all_sounds_off (-1),
      Call.cc 0 CC_CUTOFF 127,
      Call.cc 0 CC_RESONANCE 0,
      Call.cc 0 CC_ATTACK 0,
      Call.cc 0 CC_DECAY 0,
      Call.cc 0 CC_SUSTAIN 0,
      Call.cc 0 CC_RELEASE 0,
      Call.bank_select 0 bank,
      Call.program_change 0 prog ]

/-! ## The cycle: `run` -/

/-- The index requested through the program port:
`(int)(*plugin->program_port + 0.5)`, the sum taken in `double`. -/
def new_program (x : ℚ) : Int := c_int (f64 (x + 1/2))

/-- The controller value sent for a control: `(int)(v * 127.0f)`, the product
taken in `float`. -/
def cc_value (v : ℚ) : Int := c_int (f32 (v * 127))

/-- The test at the head of `run`: the index to switch to when the program
port is connected and its request differs from `current_program` and is not
negative. -/
def program_switch (plugin : Plugin) (ports : Ports) : Option Int :=
  match ports.program_port with
  | some x =>
    if new_program x ≠ plugin.current_program ∧ new_program x ≥ 0 then some (new_program x)
    else none
  | none => none

/-- The controller value sent for a `float` control value:
`(int)(v * 127.0f)`.  For an infinity or a NaN the product is an infinity or
a NaN, whose conversion C leaves undefined; the model sends 0. -/
def CFloat.cc_value : CFloat → Int
  | .finite v => SF2LV2.cc_value v
  | .inf _ => 0
  | .nan => 0

/-- One of the six control blocks of `run`: if the port is connected and its
value `!=` the stored previous value, send the controller and store the
value.  Returns the stored value afterwards and the calls made. -/
def control_update (port : Option CFloat) (prev : CFloat) (ctrl : Int) : CFloat × List Call :=
  match port with
  | some v => if v.ne prev then (v, [Call.cc 0 ctrl v.cc_value]) else (prev, [])
  | none => (prev, [])

/-- The six control blocks of `run`, in source order. -/
def dispatch_controls (plugin : Plugin) (ports : Ports) : Plugin × List Call :=
  let cutoff := control_update ports.cutoff_port plugin.prev_cutoff CC_CUTOFF
  let resonance := control_update ports.resonance_port plugin.prev_resonance CC_RESONANCE
  let attack := control_update ports.attack_port plugin.prev_attack CC_ATTACK
  let decay := control_update ports.decay_port plugin.prev_decay CC_DECAY
  let sustain := control_update ports.sustain_port plugin.prev_sustain CC_SUSTAIN
  let release := control_update ports.release_port plugin.prev_release CC_RELEASE
  ({ plugin with
      prev_cutoff := cutoff.1, prev_resonance := resonance.1, prev_attack := attack.1,
      prev_decay := decay.1, prev_sustain := sustain.1, prev_release := release.1 },
    cutoff.2 ++ resonance.2 ++ attack.2 ++ decay.2 ++ sustain.2 ++ release.2)

/-- The part of `run` before the label `process_audio`: a program change, after
which the control blocks are jumped over, or else the control blocks. -/
def run_controls (plugin : Plugin) (ports : Ports) : Plugin × List Call :=
  match program_switch plugin ports with
  | some program =>
    ({ plugin with current_program := program }, handle_program_change plugin program)
  | none => dispatch_controls plugin ports

/-- The master level block of `run`. -/
def run_level (ports : Ports) : List Call :=
  match ports.level_port with
  | some level => [Call.set_gain level]
  | none => []

/-- The body of the event loop of `run` for one event. -/
def process_event (midi_Event : Nat) (ev : Event) : List Call :=
  if ev.body_type = midi_Event then
    if ev.msg0 &&& 0xF0 = 0x90 then
      if ev.msg2 > 0 then [Call.noteon 0 ev.msg1 ev.msg2]
      else [Call.noteoff 0 ev.msg1]
    else if ev.msg0 &&& 0xF0 = 0x80 then [Call.noteoff 0 ev.msg1]
    else if ev.msg0 &&& 0xF0 = 0xB0 then [Call.cc 0 ev.msg1 ev.msg2]
    else if ev.msg0 &&& 0xF0 = 0xE0 then
      [Call.pitch_bend 0 (((ev.msg2 <<< 7) ||| ev.msg1 : Nat) : Int)]
    else []
  else []

/-- The event loop of `run`: `LV2_ATOM_SEQUENCE_FOREACH` over the events. -/
def event_loop (midi_Event : Nat) : List Event → List Call
  | [] => []
  | ev :: rest => process_event midi_Event ev ++ event_loop midi_Event rest

/-- The render loop of `run` from the state (`remaining`, `offset`), both
`uint32_t`. -/
def render_loop (remaining offset : Nat) : List Call :=
  if remaining > 0 then
    let chunk_size := if remaining > BUFFER_SIZE then BUFFER_SIZE else remaining
    [ Call.write_float chunk_size,
      Call.memcpy_out_l offset chunk_size,
      Call.memcpy_out_r offset chunk_size ]
      ++ render_loop ((remaining - chunk_size) % 2 ^ 32) ((offset + chunk_size) % 2 ^ 32)
  else []
termination_by remaining
decreasing_by
  simp only [BUFFER_SIZE]
  split <;> omega

/-- One cycle: `run`.  Returns the plugin afterwards and the calls made. -/
def run (plugin : Plugin) (ports : Ports) (sample_count : Nat) : Plugin × List Call :=
  let controls := run_controls plugin ports
  (controls.1,
    controls.2 ++ run_level ports ++ event_loop plugin.midi_Event ports.events_in
      ++ render_loop sample_count 0)

/-! ## Instantiation: `instantiate` -/

/-- What `instantiate` observes of its environment: whether the `calloc` of the
plugin structure succeeds, the id the host's `urid:map` feature gives to the
MIDI event type (`none` when the feature is missing), whether
`new_fluid_settings` and `new_fluid_synth` succeed, the sound bank, and
whether the two scratch buffers are allocated. -/
structure Host where
  plugin_alloc : Bool
  urid_map : Option Nat
  settings_ok : Bool
  synth_ok : Bool
  soundfont : SoundFont
  buffer_l_ok : Bool
  buffer_r_ok : Bool

/-- The plugin structure as `calloc` returns it: all fields zero. -/
def Plugin.zeroed : Plugin :=
  { midi_Event := 0, current_program := 0, programs := [], sfont_id := 0,
    program_count := 0, prev_cutoff := .finite 0, prev_resonance := .finite 0,
    prev_attack := .finite 0, prev_decay := .finite 0, prev_sustain := .finite 0,
    prev_release := .finite 0 }

/-- Create an instance: `instantiate`; `none` is the null handle. -/
def instantiate (host : Host) : Option Plugin :=
  if !host.plugin_alloc then none
  else
    match host.urid_map with
    | none => none
    | some id =>
      let plugin := { Plugin.zeroed with midi_Event := id }
      if !host.settings_ok then none
      else if !host.synth_ok then none
      else
        let loaded := load_soundfont host.soundfont plugin
        if loaded.1 < 0 then none
        else if !host.buffer_l_ok || !host.buffer_r_ok then none
        else
          some { loaded.2 with
            current_program := -1,
            prev_cutoff := .finite 1, prev_resonance := .finite 0,
            prev_attack := .finite 0, prev_decay := .finite 0,
            prev_sustain := .finite 0, prev_release := .finite 0 }

/-! ## Sample inputs -/

/-- A sound bank with presets at (0,0), (0,1) and (128,0), which loads. -/
def sample_soundfont : SoundFont :=
  { sfload := 1, has_sfont := true,
    get_preset := fun bank prog => (bank == 0 && prog ≤ 1) || (bank == 128 && prog == 0),
    calloc_ok := fun _ => true }

/-- An instance as `instantiate` leaves it for the catalog
[(0,0), (0,1), (128,0)], with the MIDI event type mapped to 7. -/
def sample_plugin : Plugin :=
  { midi_Event := 7, current_program := -1,
    programs := [{ bank := 0, prog := 0 }, { bank := 0, prog := 1 }, { bank := 128, prog := 0 }],
    sfont_id := 1, program_count := 3,
    prev_cutoff := .finite 1, prev_resonance := .finite 0, prev_attack := .finite 0,
    prev_decay := .finite 0, prev_sustain := .finite 0, prev_release := .finite 0 }

/-- A cycle in which the host has connected no control port and sends no event. -/
def Ports.unconnected : Ports :=
  { events_in := [], level_port := none, program_port := none, cutoff_port := none,
    resonance_port := none, attack_port := none, decay_port := none,
    sustain_port := none, release_port := none }

/-! ## Naming the six controls (statement device) -/

/-- The six continuous controls of `run`. -/
inductive Control where
  | cutoff | resonance | attack | decay | sustain | release
deriving DecidableEq

/-- The controller number `run` sends a control to. -/
def Control.number : Control → Int
  | .cutoff => CC_CUTOFF
  | .resonance => CC_RESONANCE
  | .attack => CC_ATTACK
  | .decay => CC_DECAY
  | .sustain => CC_SUSTAIN
  | .release => CC_RELEASE

/-- The host port of a control. -/
def Control.port (ports : Ports) : Control → Option CFloat
  | .cutoff => ports.cutoff_port
  | .resonance => ports.resonance_port
  | .attack => ports.attack_port
  | .decay => ports.decay_port
  | .sustain => ports.sustain_port
  | .release => ports.release_port

/-- The stored previous value (`prev_*`) of a control. -/
def Control.shadow (plugin : Plugin) : Control → CFloat
  | .cutoff => plugin.prev_cutoff
  | .resonance => plugin.prev_resonance
  | .attack => plugin.prev_attack
  | .decay => plugin.prev_decay
  | .sustain => plugin.prev_sustain
  | .release => plugin.prev_release

/-- The sample cycle of the specification: only the cutoff port is connected
and it holds 0.5. -/
def cutoff_half : Ports := { Ports.unconnected with cutoff_port := some (.finite (1/2)) }

/-- The six controller resets of `handle_program_change`, in source order
(statement device). -/
def reset_ccs : List Call :=
  [ Call.cc 0 CC_CUTOFF 127, Call.cc 0 CC_RESONANCE 0, Call.cc 0 CC_ATTACK 0,
    Call.cc 0 CC_DECAY 0, Call.cc 0 CC_SUSTAIN 0, Call.cc 0 CC_RELEASE 0 ]

/-- A sample cycle that asks for program 2 while every control port holds a
value different from the stored one. -/
def switch_to_2 : Ports :=
  { events_in := [], level_port := some 1, program_port := some 2,
    cutoff_port := some (.finite (1/2)), resonance_port := some (.finite (1/4)),
    attack_port := some (.finite (1/8)), decay_port := some (.finite (3/4)),
    sustain_port := some (.finite 1), release_port := some (.finite (1/2)) }

/-- The three calls of one pass of the render loop that produces `len` frames
for output offset `offset` (statement device). -/
def render_chunk (offset len : Nat) : List Call :=
  [Call.write_float len, Call.memcpy_out_l offset len, Call.memcpy_out_r offset len]

/-- The sample event buffer of the specification: note-on of key 60 with
velocity 100, then note-on of key 60 with velocity 0, both of the MIDI event
type of `sample_plugin`. -/
def note_on_then_off : List Event :=
  [ { body_type := 7, msg0 := 0x90, msg1 := 60, msg2 := 100 },
    { body_type := 7, msg0 := 0x90, msg1 := 60, msg2 := 0 } ]

/-- A sample event: note-on of key 60 with velocity 100 on MIDI channel 3, of
the MIDI event type of `sample_plugin`. -/
def note_on_60 : Event := { body_type := 7, msg0 := 0x93, msg1 := 60, msg2 := 100 }

/-- A sample pitch-bend event on MIDI channel 2 with data bytes low = 0x21 and
high = 0x43, of the MIDI event type of `sample_plugin`. -/
def pitch_bend_sample : Event := { body_type := 7, msg0 := 0xE2, msg1 := 0x21, msg2 := 0x43 }

/-! ## Consecutive cycles and further statement devices -/

/-- Consecutive cycles: `run` called once per list element, each time with
what the host has connected and the frame count.  Returns the plugin
afterwards and all calls made, in order. -/
def run_cycles (plugin : Plugin) : List (Ports × Nat) → Plugin × List Call
  | [] => (plugin, [])
  | cycle :: rest =>
    ((run_cycles (run plugin cycle.1 cycle.2).1 rest).1,
      (run plugin cycle.1 cycle.2).2 ++ (run_cycles (run plugin cycle.1 cycle.2).1 rest).2)

/-- Whether a call selects a preset in the engine: `fluid_synth_bank_select`
or `fluid_synth_program_change` (statement device). -/
def Call.is_select : Call → Bool
  | .bank_select _ _ => true
  | .program_change _ _ => true
  | _ => false

/-- Whether a call is `fluid_synth_set_gain` (statement device). -/
def Call.is_set_gain : Call → Bool
  | .set_gain _ => true
  | _ => false

/-- The channel argument of a call that has one (statement device). -/
def Call.chan : Call → Option Int
  | .all_notes_off chan => some chan
  | .all_sounds_off chan => some chan
  | .cc chan _ _ => some chan
  | .bank_select chan _ => some chan
  | .program_change chan _ => some chan
  | .noteon chan _ _ => some chan
  | .noteoff chan _ => some chan
  | .pitch_bend chan _ => some chan
  | _ => none

/-- An environment in which every step of `instantiate` other than the sound
bank succeeds and the MIDI event type is mapped to 7. -/
def Host.working (soundfont : SoundFont) : Host :=
  { plugin_alloc := true, urid_map := some 7, settings_ok := true, synth_ok := true,
    soundfont := soundfont, buffer_l_ok := true, buffer_r_ok := true }

/-- A sound bank that loads and has no preset at any address of the scan,
with an allocator whose `calloc` of zero entries returns a non-null pointer
(as glibc does). -/
def empty_soundfont : SoundFont :=
  { sfload := 1, has_sfont := true, get_preset := fun _ _ => false,
    calloc_ok := fun _ => true }

/-- The same sound bank with an allocator whose `calloc` of zero entries
returns the null pointer. -/
def empty_soundfont_null_calloc : SoundFont :=
  { empty_soundfont with calloc_ok := fun n => n != 0 }

/-- A sample cycle that asks for program 5 and connects nothing else. -/
def request_5 : Ports := { Ports.unconnected with program_port := some 5 }

/-- A sample cycle that asks for program 2 and connects nothing else. -/
def request_2 : Ports := { Ports.unconnected with program_port := some 2 }

/-- A sample cycle in which only the level port is connected and holds 1.0. -/
def level_one : Ports := { Ports.unconnected with level_port := some 1 }

/-- A sample cycle in which the cutoff and program ports are unconnected while
the other five controls hold values different from the stored ones. -/
def cutoff_absent : Ports :=
  { events_in := [], level_port := none, program_port := none, cutoff_port := none,
    resonance_port := some (.finite (1/4)), attack_port := some (.finite (1/8)),
    decay_port := some (.finite (3/4)), sustain_port := some (.finite 1),
    release_port := some (.finite (1/2)) }

/-- A sample answer of the engine to `fluid_synth_cc(chan, ctrl, val)`:
success exactly when controller and value are both in 0..127, the range
check FluidSynth applies. -/
def range_checked_cc (_chan ctrl val : Int) : Bool :=
  decide (0 ≤ ctrl ∧ ctrl ≤ 127 ∧ 0 ≤ val ∧ val ≤ 127)

/-- The sample cycle in which only the cutoff port is connected and holds 2.0. -/
def cutoff_two : Ports := { Ports.unconnected with cutoff_port := some (.finite 2) }

/-! ## Descriptor generator: `main` of ttl_generator.c -/

/-- Bank, program and name of a preset: `struct PresetMapping`. -/
structure PresetMapping where
  bank : Int
  prog : Int
  name : String
deriving DecidableEq

/-- What `main` of the generator observes of its environment: whether the
steps before the scan succeed (argument present, directories created, sound
bank copied), the result of `fluid_synth_sfload`, whether
`fluid_synth_get_sfont` returns a handle, the preset query and the preset
names of the engine, whether the two output paths fit their buffers, whether
the descriptor file opens, and whether `malloc` of that many mappings returns
a non-null pointer. -/
structure GeneratorEnv where
  setup_ok : Bool
  sfload : Int
  has_sfont : Bool
  get_preset : Nat → Nat → Bool
  preset_name : Nat → Nat → String
  paths_fit : Bool
  ttl_open : Bool
  malloc_ok : Nat → Bool

/-- What a successful run of the generator has computed and written: the
preset count, the number printed as `lv2:maximum` of the program port, the
mapping table, and the scale points in the order written, each with its
`rdfs:label` and its `rdf:value`. -/
structure Generated where
  total_presets : Nat
  program_maximum : Int
  preset_mappings : List PresetMapping
  scale_points : List (String × Int)
deriving DecidableEq

/-- The counting loops of the generator: `total_presets`. -/
def generator_count (get_preset : Nat → Nat → Bool) : Nat :=
  (List.range 129).foldl (fun total_presets bank =>
    (List.range 128).foldl (fun total_presets prog =>
      if get_preset bank prog then total_presets + 1 else total_presets)
      total_presets) 0

/-- The storing loops of the generator.  The state is
`(mapping_index, preset_mappings)`.  A store beyond the table is dropped (C
leaves it undefined). -/
def generator_fill (get_preset : Nat → Nat → Bool) (preset_name : Nat → Nat → String)
    (preset_mappings : List PresetMapping) : Nat × List PresetMapping :=
  (List.range 129).foldl (fun st bank =>
    (List.range 128).foldl (fun st prog =>
      if get_preset bank prog then
        (st.1 + 1,
          st.2.set st.1
            { bank := (bank : Int), prog := (prog : Int), name := preset_name bank prog })
      else st)
      st) (0, preset_mappings)

/-- The generator from the loading of the sound bank on; `none` is an exit
with status 1.  The entries that `malloc` leaves undetermined start as an
entry with empty name. -/
def generate (env : GeneratorEnv) : Option Generated :=
  if !env.setup_ok then none
  else if env.sfload = FLUID_FAILED then none
  else if !env.has_sfont then none
  else
    let total_presets := generator_count env.get_preset
    if total_presets = 0 then none
    else if !env.paths_fit then none
    else if !env.ttl_open then none
    else
      let program_maximum : Int := (total_presets : Int) - 1
      if !env.malloc_ok total_presets then none
      else
        let filled := generator_fill env.get_preset env.preset_name
          (List.replicate total_presets { bank := 0, prog := 0, name := "" })
        let scale_points := (List.range total_presets).map (fun i =>
          ((filled.2.getD i { bank := 0, prog := 0, name := "" }).name, (i : Int)))
        some { total_presets := total_presets, program_maximum := program_maximum,
               preset_mappings := filled.2, scale_points := scale_points }

/-- A generator environment for the sample sound bank in which every step
succeeds; every preset is named "p". -/
def sample_generator_env : GeneratorEnv :=
  { setup_ok := true, sfload := 1, has_sfont := true,
    get_preset := sample_soundfont.get_preset, preset_name := fun _ _ => "p",
    paths_fit := true, ttl_open := true, malloc_ok := fun _ => true }

/-- What the generator produces for the sample sound bank. -/
def sample_generated : Generated :=
  { total_presets := 3, program_maximum := 2,
    preset_mappings :=
      [ { bank := 0, prog := 0, name := "p" }, { bank := 0, prog := 1, name := "p" },
        { bank := 128, prog := 0, name := "p" } ],
    scale_points := [("p", 0), ("p", 1), ("p", 2)] }

/-- The `float` nearest to -0.7, which is -11744051 / 2^24. -/
def float_minus_0_7 : ℚ := -11744051 / 16777216

/-- A sample cycle whose program port holds the `float` -0.7 and which
connects nothing else. -/
def request_minus_0_7 : Ports := { Ports.unconnected with program_port := some float_minus_0_7 }

/-- The stores of the second pass of `load_soundfont` in the order made
(statement device): the loops of `fill_pass`, but each `programs[idx] = ...`
is recorded as the pair of the index written and the entry stored there
instead of being performed.  The state is `(idx, stores)`. -/
def fill_pass_stores (get_preset : Nat → Nat → Bool) : Nat × List (Nat × BankProgram) :=
  (List.range 129).foldl (fun st bank =>
    (List.range 128).foldl (fun st prog =>
      if get_preset bank prog then
        (st.1 + 1, st.2 ++ [(st.1, { bank := (bank : Int), prog := (prog : Int) })])
      else st)
      st) (0, [])

theorem foldl_nested {σ α β : Type} (f : σ → α → β → σ) (l1 : List α) (l2 : List β)
    (init : σ) :
    l1.foldl (fun acc a => l2.foldl (fun acc b => f acc a b) acc) init
      = (l1.flatMap (fun a => l2.map (fun b => (a, b)))).foldl
          (fun acc x => f acc x.1 x.2) init := by
  induction l1 generalizing init with
  | nil => rfl
  | cons a l1 ih =>
    simp only [List.foldl_cons, List.flatMap_cons, List.foldl_append, List.foldl_map]
    exact ih _

theorem count_pass_eq (P : Nat → Nat → Bool) :
    count_pass P = (preset_grid.filter (fun x => P x.1 x.2)).length := by
  unfold count_pass preset_grid
  rw [foldl_nested (fun acc bank prog => if P bank prog then acc + 1 else acc)]
  generalize (List.range 129).flatMap _ = l
  suffices h : ∀ n, l.foldl (fun acc x => if P x.1 x.2 = true then acc + 1 else acc) n
      = n + (l.filter (fun x => P x.1 x.2)).length by simpa using h 0
  induction l with
  | nil => intro n; rfl
  | cons x l ih =>
    intro n
    by_cases hx : P x.1 x.2 = true
    · simp only [List.foldl_cons, hx, if_true, List.filter_cons_of_pos, List.length_cons, ih]
      omega
    · simp only [List.foldl_cons, hx, if_false, ih]
      simp [List.filter_cons, hx]

/-- Step of the second pass on one address (proof device mirrors the loop body). -/
theorem fill_fold_eq (P : Nat → Nat → Bool) (l : List (Nat × Nat)) :
    ∀ (pre rest : List BankProgram),
      (l.filter (fun x => P x.1 x.2)).length ≤ rest.length →
      l.foldl (fun (st : Nat × List BankProgram) x =>
          if P x.1 x.2 then
            (st.1 + 1, st.2.set st.1 { bank := (x.1 : Int), prog := (x.2 : Int) })
          else st) (pre.length, pre ++ rest)
        = (pre.length + (l.filter (fun x => P x.1 x.2)).length,
            pre ++ (l.filter (fun x => P x.1 x.2)).map
                (fun x => ({ bank := (x.1 : Int), prog := (x.2 : Int) } : BankProgram))
              ++ rest.drop (l.filter (fun x => P x.1 x.2)).length) := by
  induction l with
  | nil => intro pre rest _; simp
  | cons x l ih =>
    intro pre rest hlen
    by_cases hx : P x.1 x.2 = true
    · simp only [List.filter_cons_of_pos, hx, List.length_cons] at hlen
      cases rest with
      | nil => simp at hlen
      | cons r rest =>
        simp only [List.length_cons, Nat.add_le_add_iff_right] at hlen
        have hset : (pre ++ r :: rest).set pre.length
            ({ bank := (x.1 : Int), prog := (x.2 : Int) } : BankProgram)
            = (pre ++ [{ bank := (x.1 : Int), prog := (x.2 : Int) }]) ++ rest := by
          simp [List.set_append]
        have h := ih (pre ++ [{ bank := (x.1 : Int), prog := (x.2 : Int) }]) rest hlen
        simp only [List.length_append, List.length_singleton] at h
        simp only [List.foldl_cons, hx, if_true, hset, List.filter_cons_of_pos,
          List.length_cons, List.map_cons, List.drop_succ_cons]
        rw [h]
        refine Prod.ext ?_ ?_
        · simp only; omega
        · simp
    · have hf : (x :: l).filter (fun x => P x.1 x.2) = l.filter (fun x => P x.1 x.2) := by
        simp [List.filter_cons, hx]
      rw [hf] at hlen ⊢
      simp only [List.foldl_cons, hx, if_false]
      exact ih pre rest hlen

theorem fill_pass_eq (P : Nat → Nat → Bool) :
    fill_pass P (List.replicate (count_pass P) { bank := 0, prog := 0 })
      = (count_pass P, (preset_grid.filter (fun x => P x.1 x.2)).map
          (fun x => ({ bank := (x.1 : Int), prog := (x.2 : Int) } : BankProgram))) := by
  unfold fill_pass
  rw [foldl_nested (fun (st : Nat × List BankProgram) bank prog =>
      if P bank prog then
        (st.1 + 1, st.2.set st.1 { bank := (bank : Int), prog := (prog : Int) })
      else st)]
  have h := fill_fold_eq P preset_grid [] (List.replicate (count_pass P) { bank := 0, prog := 0 })
    (by simp [count_pass_eq])
  simp only [List.length_nil, List.nil_append, Nat.zero_add] at h
  unfold preset_grid at h
  rw [h]
  simp [count_pass_eq, preset_grid]

theorem mem_preset_grid (x : Nat × Nat) : x ∈ preset_grid ↔ x.1 ≤ 128 ∧ x.2 ≤ 127 := by
  obtain ⟨b, p⟩ := x
  simp only [preset_grid, List.mem_flatMap, List.mem_map, List.mem_range, Prod.mk.injEq]
  constructor
  · rintro ⟨b', hb, p', hp, rfl, rfl⟩
    omega
  · rintro ⟨hb, hp⟩
    exact ⟨b, by omega, p, by omega, rfl, rfl⟩

theorem preset_grid_pairwise :
    preset_grid.Pairwise (fun x y => x.1 < y.1 ∨ (x.1 = y.1 ∧ x.2 < y.2)) := by
  unfold preset_grid
  rw [List.pairwise_flatMap]
  constructor
  · intro bank _
    rw [List.pairwise_map]
    exact (List.pairwise_lt_range 128).imp (fun hlt => Or.inr ⟨rfl, hlt⟩)
  · refine (List.pairwise_lt_range 129).imp ?_
    intro b1 b2 hlt x hx y hy
    simp only [List.mem_map] at hx hy
    obtain ⟨_, _, rfl⟩ := hx
    obtain ⟨_, _, rfl⟩ := hy
    exact Or.inl hlt

theorem preset_grid_nodup : preset_grid.Nodup := by
  refine preset_grid_pairwise.imp ?_
  intro x y hxy heq
  subst heq
  rcases hxy with h | ⟨_, h⟩ <;> omega

theorem count_pass_card (P : Nat → Nat → Bool) :
    count_pass P
      = ((Finset.range 129 ×ˢ Finset.range 128).filter (fun x => P x.1 x.2 = true)).card := by
  have hset : (preset_grid.filter (fun x => P x.1 x.2)).toFinset
      = (Finset.range 129 ×ˢ Finset.range 128).filter (fun x => P x.1 x.2 = true) := by
    ext x
    simp only [List.mem_toFinset, List.mem_filter, mem_preset_grid, Finset.mem_filter,
      Finset.mem_product, Finset.mem_range]
    constructor <;> rintro ⟨⟨h1, h2⟩, h3⟩ <;> exact ⟨⟨by omega, by omega⟩, h3⟩
  rw [count_pass_eq, ← List.toFinset_card_of_nodup (preset_grid_nodup.filter _), hset]

theorem load_soundfont_ok (sf : SoundFont) (plugin : Plugin)
    (h : 0 ≤ (load_soundfont sf plugin).1) :
    (load_soundfont sf plugin).2.program_count = (count_pass sf.get_preset : Int)
    ∧ (load_soundfont sf plugin).2.programs
        = (preset_grid.filter (fun x => sf.get_preset x.1 x.2)).map
            (fun x => ({ bank := (x.1 : Int), prog := (x.2 : Int) } : BankProgram)) := by
  unfold load_soundfont at h ⊢
  simp only at h ⊢
  split_ifs at h ⊢ with h1 h2 h3
  · simp at h
  · simp at h
  · simp at h
  · simp [fill_pass_eq]

/-- C1: whenever `load_soundfont` reports success, `program_count` is the
number of (bank, program) addresses in 0..128 x 0..127 at which the engine has
a preset, the table holds exactly `program_count` entries, an entry is in the
table exactly when it is such an address, and the entries are strictly
increasing in lexicographic (bank, program) order, so none occurs twice. -/
theorem load_soundfont_catalog (sf : SoundFont) (plugin : Plugin)
    (h : 0 ≤ (load_soundfont sf plugin).1) :
    (load_soundfont sf plugin).2.program_count
        = (((Finset.range 129 ×ˢ Finset.range 128).filter
            (fun x => sf.get_preset x.1 x.2 = true)).card : Int)
    ∧ ((load_soundfont sf plugin).2.programs.length : Int)
        = (load_soundfont sf plugin).2.program_count
    ∧ (∀ e : BankProgram, e ∈ (load_soundfont sf plugin).2.programs ↔
        ∃ bank prog : Nat, bank ≤ 128 ∧ prog ≤ 127 ∧ sf.get_preset bank prog = true
          ∧ e = { bank := (bank : Int), prog := (prog : Int) })
    ∧ (load_soundfont sf plugin).2.programs.Pairwise BankProgram.lexLt
    ∧ (load_soundfont sf plugin).2.programs.Nodup := by
  obtain ⟨hc, hp⟩ := load_soundfont_ok sf plugin h
  have hpw : (load_soundfont sf plugin).2.programs.Pairwise BankProgram.lexLt := by
    rw [hp, List.pairwise_map]
    refine (preset_grid_pairwise.filter _).imp ?_
    intro x y hxy
    unfold BankProgram.lexLt
    rcases hxy with h1 | ⟨h1, h2⟩
    · exact Or.inl (Int.ofNat_lt.mpr h1)
    · exact Or.inr ⟨congrArg Int.ofNat h1, Int.ofNat_lt.mpr h2⟩
  refine ⟨?_, ?_, ?_, hpw, ?_⟩
  · rw [hc, count_pass_card]
  · rw [hc, hp, List.length_map, count_pass_eq]
  · intro e
    rw [hp]
    simp only [List.mem_map, List.mem_filter, mem_preset_grid]
    constructor
    · rintro ⟨⟨b, p⟩, ⟨⟨hb, hpr⟩, hP⟩, rfl⟩
      exact ⟨b, p, hb, hpr, hP, rfl⟩
    · rintro ⟨b, p, hb, hpr, hP, rfl⟩
      exact ⟨(b, p), ⟨⟨hb, hpr⟩, hP⟩, rfl⟩
  · refine hpw.imp ?_
    intro a b hab heq
    subst heq
    unfold BankProgram.lexLt at hab
    rcases hab with h1 | ⟨_, h1⟩ <;> omega

theorem load_soundfont_catalog_witness :
    0 ≤ (load_soundfont sample_soundfont Plugin.zeroed).1
    ∧ ((load_soundfont sample_soundfont Plugin.zeroed).2.program_count
        = (((Finset.range 129 ×ˢ Finset.range 128).filter
            (fun x => sample_soundfont.get_preset x.1 x.2 = true)).card : Int)
      ∧ ((load_soundfont sample_soundfont Plugin.zeroed).2.programs.length : Int)
          = (load_soundfont sample_soundfont Plugin.zeroed).2.program_count
      ∧ (∀ e : BankProgram, e ∈ (load_soundfont sample_soundfont Plugin.zeroed).2.programs ↔
          ∃ bank prog : Nat, bank ≤ 128 ∧ prog ≤ 127
            ∧ sample_soundfont.get_preset bank prog = true
            ∧ e = { bank := (bank : Int), prog := (prog : Int) })
      ∧ (load_soundfont sample_soundfont Plugin.zeroed).2.programs.Pairwise BankProgram.lexLt
      ∧ (load_soundfont sample_soundfont Plugin.zeroed).2.programs.Nodup) :=
  ⟨by decide!, load_soundfont_catalog sample_soundfont Plugin.zeroed (by decide!)⟩

/-- The catalog of the sample sound bank, computed by the two passes. -/
theorem sample_catalog :
    instantiate { plugin_alloc := true, urid_map := some 7, settings_ok := true,
                  synth_ok := true, soundfont := sample_soundfont,
                  buffer_l_ok := true, buffer_r_ok := true } = some sample_plugin := by
  decide!

/-- C2: for a table of `program_count` entries and a valid index `i`,
`handle_program_change` makes exactly these calls, in this order: all notes
off and all sounds off on the wildcard channel -1, controller 74 to 127,
controllers 71, 73, 75, 70, 72 to 0, bank select of `programs[i].bank`, then
program change to `programs[i].prog`. -/
theorem handle_program_change_sequence (plugin : Plugin) (i : Int)
    (h0 : 0 ≤ i) (h1 : i < plugin.program_count)
    (hlen : plugin.program_count = (plugin.programs.length : Int)) :
    ∃ e : BankProgram, plugin.programs[i.toNat]? = some e ∧
      handle_program_change plugin i =
        [ Call.all_notes_off (-1), Call.all_sounds_off (-1),
          Call.cc 0 74 127, Call.cc 0 71 0, Call.cc 0 73 0,
          Call.cc 0 75 0, Call.cc 0 70 0, Call.cc 0 72 0,
          Call.bank_select 0 e.bank, Call.program_change 0 e.prog ] := by
  have hi : i.toNat < plugin.programs.length := by omega
  refine ⟨plugin.programs[i.toNat], List.getElem?_eq_getElem hi, ?_⟩
  have hnot : ¬ (i < 0 ∨ i ≥ plugin.program_count) := by omega
  simp only [handle_program_change, hnot, if_false, List.getD_eq_getElem?_getD,
    List.getElem?_eq_getElem hi, Option.getD_some, CC_CUTOFF, CC_RESONANCE, CC_ATTACK,
    CC_DECAY, CC_SUSTAIN, CC_RELEASE]

theorem handle_program_change_sequence_witness :
    (0 : Int) ≤ 2 ∧ (2 : Int) < sample_plugin.program_count
    ∧ sample_plugin.program_count = (sample_plugin.programs.length : Int)
    ∧ (∃ e : BankProgram, sample_plugin.programs[(2 : Int).toNat]? = some e ∧
        handle_program_change sample_plugin 2 =
          [ Call.all_notes_off (-1), Call.all_sounds_off (-1),
            Call.cc 0 74 127, Call.cc 0 71 0, Call.cc 0 73 0,
            Call.cc 0 75 0, Call.cc 0 70 0, Call.cc 0 72 0,
            Call.bank_select 0 e.bank, Call.program_change 0 e.prog ])
    ∧ handle_program_change sample_plugin 2 =
        [ Call.all_notes_off (-1), Call.all_sounds_off (-1),
          Call.cc 0 74 127, Call.cc 0 71 0, Call.cc 0 73 0,
          Call.cc 0 75 0, Call.cc 0 70 0, Call.cc 0 72 0,
          Call.bank_select 0 128, Call.program_change 0 0 ] :=
  ⟨by decide, by decide, by decide,
    handle_program_change_sequence sample_plugin 2 (by decide) (by decide) (by decide),
    by decide⟩

/-- C3: with three presets and nothing selected yet, a cycle whose program
port holds 5 makes no call at all (the request is rejected by
`handle_program_change`), yet `run` stores the rejected index:
`current_program` is -1 before the cycle and 5, not an index of the table,
after it. -/
theorem run_stores_rejected_program :
    sample_plugin.current_program = -1
    ∧ sample_plugin.program_count = 3
    ∧ new_program 5 = 5
    ∧ handle_program_change sample_plugin 5 = []
    ∧ (run sample_plugin { Ports.unconnected with program_port := some 5 } 0).2 = []
    ∧ (run sample_plugin { Ports.unconnected with program_port := some 5 } 0).1.current_program
        = 5 := by
  decide!

/-- For a value that is not NaN, `!=` holds exactly when the two values are
not the same. -/
theorem CFloat.ne_iff (v prev : CFloat) (hv : v ≠ CFloat.nan) :
    v.ne prev = true ↔ v ≠ prev := by
  cases v with
  | nan => exact absurd rfl hv
  | finite a => cases prev <;> simp [CFloat.ne]
  | inf s => cases prev <;> simp [CFloat.ne]

theorem CFloat.nan_ne (prev : CFloat) : CFloat.nan.ne prev = true := by
  cases prev <;> rfl

/-- Values that `!=` does not separate are the same value. -/
theorem CFloat.eq_of_not_ne (v prev : CFloat) (h : ¬ v.ne prev = true) : v = prev := by
  cases v with
  | nan => exact absurd (CFloat.nan_ne prev) h
  | finite a =>
    by_contra hne
    exact h ((CFloat.ne_iff _ prev (by simp)).mpr hne)
  | inf s =>
    by_contra hne
    exact h ((CFloat.ne_iff _ prev (by simp)).mpr hne)

theorem control_update_filter (port : Option CFloat) (prev : CFloat) (ctrl c : Int) :
    (control_update port prev ctrl).2.filter (Call.is_cc_to c)
      = if ctrl = c then (control_update port prev ctrl).2 else [] := by
  unfold control_update
  cases port with
  | none => simp
  | some v =>
    by_cases hv : v.ne prev = true
    · by_cases hc : ctrl = c <;> simp [hv, hc, Call.is_cc_to]
    · simp [hv]

theorem control_update_nan (prev : CFloat) (ctrl : Int) :
    control_update (some CFloat.nan) prev ctrl = (CFloat.nan, [Call.cc 0 ctrl 0]) := by
  simp [control_update, CFloat.nan_ne, CFloat.cc_value]

/-- A port value that is the stored one, and not NaN: nothing is sent. -/
theorem control_update_same (v prev : CFloat) (ctrl : Int) (hv : v ≠ CFloat.nan)
    (h : v = prev) : control_update (some v) prev ctrl = (v, []) := by
  have hne : ¬ v.ne prev = true := fun hc => (CFloat.ne_iff v prev hv).mp hc h
  subst h
  simp [control_update, hne]

/-- A port value that `!=` separates from the stored one: one call is sent and
the value stored. -/
theorem control_update_differ (v prev : CFloat) (ctrl : Int) (h : v.ne prev = true) :
    control_update (some v) prev ctrl = (v, [Call.cc 0 ctrl v.cc_value]) := by
  simp [control_update, h]

/-- After the block of a connected control the stored value is the port value. -/
theorem control_update_fst (v prev : CFloat) (ctrl : Int) :
    (control_update (some v) prev ctrl).1 = v := by
  by_cases h : v.ne prev = true
  · rw [control_update_differ v prev ctrl h]
  · have he := CFloat.eq_of_not_ne v prev h
    simp only [control_update, h, if_false]
    exact he.symm

/-- The calls `dispatch_controls` makes to the controller of one control are
the calls of that control's block. -/
theorem dispatch_controls_filter (plugin : Plugin) (ports : Ports) (k : Control) :
    (dispatch_controls plugin ports).2.filter (Call.is_cc_to k.number)
      = (control_update (k.port ports) (k.shadow plugin) k.number).2 := by
  cases k <;>
    simp [dispatch_controls, List.filter_append, control_update_filter, Control.number,
      Control.port, Control.shadow, CC_CUTOFF, CC_RESONANCE, CC_ATTACK, CC_DECAY, CC_SUSTAIN,
      CC_RELEASE]

theorem dispatch_controls_shadow (plugin : Plugin) (ports : Ports) (k : Control) :
    k.shadow (dispatch_controls plugin ports).1
      = (control_update (k.port ports) (k.shadow plugin) k.number).1 := by
  cases k <;> rfl

theorem run_idle (plugin : Plugin) (ports : Ports) (n : Nat)
    (hidle : program_switch plugin ports = none) :
    run plugin ports n
      = ((dispatch_controls plugin ports).1,
          (dispatch_controls plugin ports).2 ++ run_level ports
            ++ event_loop plugin.midi_Event ports.events_in ++ render_loop n 0) := by
  simp [run, run_controls, hidle]

/-- The sample of the specification, cutoff 1.0, then 0.5, then 0.5: the
second cycle sends one controller call, the third none. -/
theorem cutoff_sample_cycles :
    (run sample_plugin cutoff_half 0).2 = [Call.cc 0 74 63]
    ∧ (run (run sample_plugin cutoff_half 0).1 cutoff_half 0).2 = [] := by
  decide!

/-! ### Rounding lemmas -/

theorem rne_le (r : ℚ) (n : Int) (h : r ≤ n) : rne r ≤ n := by
  have hfl : ⌊r⌋ ≤ n := by exact_mod_cast le_trans (Int.floor_le r) h
  unfold rne
  simp only
  split_ifs with h1 h2 h3
  · exact hfl
  · rcases lt_or_eq_of_le h with hlt | heq
    · have : ⌊r⌋ < n := Int.floor_lt.mpr hlt
      omega
    · exfalso
      rw [heq, Int.floor_intCast] at h2
      simp at h2
      linarith
  · exact hfl
  · rcases lt_or_eq_of_le h with hlt | heq
    · have : ⌊r⌋ < n := Int.floor_lt.mpr hlt
      omega
    · exfalso
      rw [heq, Int.floor_intCast] at h1
      simp at h1

theorem le_rne (r : ℚ) (n : Int) (h : (n : ℚ) ≤ r) : n ≤ rne r := by
  have hfl : n ≤ ⌊r⌋ := Int.le_floor.mpr h
  unfold rne
  simp only
  split_ifs <;> omega

theorem abs_eq_natAbs_div_den (q : ℚ) : |q| = (q.num.natAbs : ℚ) / (q.den : ℚ) := by
  conv_lhs => rw [← Rat.num_div_den q]
  rw [abs_div, Nat.abs_cast, Nat.cast_natAbs, Int.cast_abs]

/-- The exponent found by `ilog2` is not above the magnitude. -/
theorem two_zpow_ilog2_le (q : ℚ) (hq : q ≠ 0) : (2 : ℚ) ^ ilog2 q ≤ |q| := by
  unfold ilog2
  simp only
  split_ifs with h
  · have hn : q.num.natAbs ≠ 0 := by
      simpa [Int.natAbs_eq_zero] using hq
    have h1 : (2 : ℚ) ^ q.num.natAbs.log2 ≤ (q.num.natAbs : ℚ) := by
      exact_mod_cast Nat.log2_self_le hn
    have h2 : (q.den : ℚ) < (2 : ℚ) ^ (q.den.log2 + 1) := by
      exact_mod_cast Nat.lt_log2_self
    have hd : (0 : ℚ) < q.den := by exact_mod_cast q.den_pos
    have hexp : (q.num.natAbs.log2 : Int) - (q.den.log2 : Int) - 1
        = (q.num.natAbs.log2 : Int) - ((q.den.log2 + 1 : Nat) : Int) := by
      push_cast; ring
    rw [hexp, zpow_sub₀ (by norm_num : (2 : ℚ) ≠ 0), zpow_natCast, zpow_natCast,
      abs_eq_natAbs_div_den]
    have hp : (0 : ℚ) < (2 : ℚ) ^ (q.den.log2 + 1) := by positivity
    rw [div_le_div_iff₀ hp hd]
    have hn0 : (0 : ℚ) ≤ (q.num.natAbs : ℚ) := by positivity
    nlinarith
  · exact not_lt.mp h

/-- The exponent found by `ilog2` is the floor of the logarithm: the magnitude
is below the next power of two. -/
theorem abs_lt_two_zpow_ilog2_succ (q : ℚ) : |q| < (2 : ℚ) ^ (ilog2 q + 1) := by
  unfold ilog2
  simp only
  split_ifs with h
  · rw [sub_add_cancel]
    exact h
  · have h1 : (q.num.natAbs : ℚ) < (2 : ℚ) ^ (q.num.natAbs.log2 + 1) := by
      exact_mod_cast Nat.lt_log2_self
    have h2 : (2 : ℚ) ^ q.den.log2 ≤ (q.den : ℚ) := by
      exact_mod_cast Nat.log2_self_le q.den_nz
    have hd : (0 : ℚ) < q.den := by exact_mod_cast q.den_pos
    have hexp : (q.num.natAbs.log2 : Int) - (q.den.log2 : Int) + 1
        = ((q.num.natAbs.log2 + 1 : Nat) : Int) - (q.den.log2 : Int) := by
      push_cast; ring
    rw [hexp, zpow_sub₀ (by norm_num : (2 : ℚ) ≠ 0), zpow_natCast, zpow_natCast,
      abs_eq_natAbs_div_den]
    have hp : (0 : ℚ) < (2 : ℚ) ^ q.den.log2 := by positivity
    rw [div_lt_div_iff₀ hd hp]
    have hp1 : (0 : ℚ) < (2 : ℚ) ^ (q.num.natAbs.log2 + 1) := by positivity
    nlinarith

theorem ilog2_lt_of_abs_lt (q : ℚ) (hq : q ≠ 0) (e : Int) (h : |q| < (2 : ℚ) ^ e) :
    ilog2 q < e := by
  have h1 := two_zpow_ilog2_le q hq
  have h2 : (2 : ℚ) ^ ilog2 q < (2 : ℚ) ^ e := lt_of_le_of_lt h1 h
  exact (zpow_lt_zpow_iff_right₀ (by norm_num : (1 : ℚ) < 2)).mp h2

/-- The same from below. -/
theorem le_fp_round_int (prec : Nat) (emin : Int) (q : ℚ) (n : Int)
    (hs : q ≠ 0 → max (ilog2 q - ((prec : Int) - 1)) emin ≤ 0) (h : (n : ℚ) ≤ q) :
    (n : ℚ) ≤ fp_round prec emin q := by
  unfold fp_round
  split_ifs with hq
  · rw [hq] at h; exact h
  · simp only
    have hs0 := hs hq
    generalize max (ilog2 q - ((prec : Int) - 1)) emin = s at hs0
    obtain ⟨m, rfl⟩ : ∃ m : Nat, s = -(m : Int) := ⟨(-s).toNat, by omega⟩
    have hpos : (0 : ℚ) < (2 : ℚ) ^ (-(m : Int)) := by positivity
    have hinv : (2 : ℚ) ^ (-(m : Int)) * (2 : ℚ) ^ m = 1 := by
      rw [zpow_neg, zpow_natCast]
      exact inv_mul_cancel₀ (by positivity)
    have hq2 : ((n * 2 ^ m : Int) : ℚ) ≤ q / (2 : ℚ) ^ (-(m : Int)) := by
      rw [le_div_iff₀ hpos]
      push_cast
      rw [mul_assoc, mul_comm ((2 : ℚ) ^ m), hinv, mul_one]
      exact h
    have hr : ((n * 2 ^ m : Int) : ℚ) ≤ (rne (q / (2 : ℚ) ^ (-(m : Int))) : ℚ) := by
      exact_mod_cast le_rne _ _ hq2
    calc (n : ℚ) = ((n * 2 ^ m : Int) : ℚ) * (2 : ℚ) ^ (-(m : Int)) := by
          push_cast
          rw [mul_assoc, mul_comm ((2 : ℚ) ^ m), hinv, mul_one]
      _ ≤ (rne (q / (2 : ℚ) ^ (-(m : Int))) : ℚ) * (2 : ℚ) ^ (-(m : Int)) :=
          mul_le_mul_of_nonneg_right hr hpos.le

theorem run_switch (plugin : Plugin) (ports : Ports) (n : Nat) (r : Int)
    (hsw : program_switch plugin ports = some r) :
    run plugin ports n
      = ({ plugin with current_program := r },
          handle_program_change plugin r ++ run_level ports
            ++ event_loop plugin.midi_Event ports.events_in ++ render_loop n 0) := by
  simp [run, run_controls, hsw]

theorem handle_program_change_ccs (plugin : Plugin) (r : Int) :
    (handle_program_change plugin r).filter Call.is_cc
      = if 0 ≤ r ∧ r < plugin.program_count then reset_ccs else [] := by
  unfold handle_program_change
  by_cases h : r < 0 ∨ r ≥ plugin.program_count
  · have h2 : ¬ (0 ≤ r ∧ r < plugin.program_count) := by omega
    simp [h, h2]
  · have h2 : 0 ≤ r ∧ r < plugin.program_count := by omega
    simp only [h, h2, if_false, and_self, if_true]
    rfl

theorem run_level_no_cc (ports : Ports) : (run_level ports).filter Call.is_cc = [] := by
  unfold run_level
  cases ports.level_port <;> simp [Call.is_cc]

/-- C6: in a cycle in which the program port asks for a switch to `r`, the
calls of `run` are those of `handle_program_change`, then the level call, the
event calls and the render calls: the six control blocks contribute nothing.
What precedes the event calls does not depend on the six control ports, its
controller calls are the six fixed resets (74 to 127, and 71, 73, 75, 70, 72
to 0) when `r` is an index of the table, and none when it is not. -/
theorem run_program_change_skips_dispatch (plugin : Plugin) (ports : Ports) (n : Nat) (r : Int)
    (hsw : program_switch plugin ports = some r) :
    (run plugin ports n).2
        = handle_program_change plugin r ++ run_level ports
            ++ event_loop plugin.midi_Event ports.events_in ++ render_loop n 0
    ∧ (handle_program_change plugin r ++ run_level ports).filter Call.is_cc
        = (if 0 ≤ r ∧ r < plugin.program_count then
            [ Call.cc 0 74 127, Call.cc 0 71 0, Call.cc 0 73 0,
              Call.cc 0 75 0, Call.cc 0 70 0, Call.cc 0 72 0 ]
          else [])
    ∧ (∀ ports' : Ports, ports'.program_port = ports.program_port →
        ports'.level_port = ports.level_port → ports'.events_in = ports.events_in →
        (run plugin ports' n).2 = (run plugin ports n).2) := by
  refine ⟨by rw [run_switch plugin ports n r hsw], ?_, ?_⟩
  · rw [List.filter_append, run_level_no_cc, List.append_nil, handle_program_change_ccs]
    rfl
  · intro ports' hp hl he
    have hsw' : program_switch plugin ports' = some r := by
      unfold program_switch at hsw ⊢
      rw [hp]
      exact hsw
    rw [run_switch plugin ports n r hsw, run_switch plugin ports' n r hsw']
    simp only [run_level, hl, he]

theorem run_program_change_skips_dispatch_witness :
    program_switch sample_plugin switch_to_2 = some 2
    ∧ ((run sample_plugin switch_to_2 0).2
          = handle_program_change sample_plugin 2 ++ run_level switch_to_2
              ++ event_loop sample_plugin.midi_Event switch_to_2.events_in ++ render_loop 0 0
      ∧ (handle_program_change sample_plugin 2 ++ run_level switch_to_2).filter Call.is_cc
          = (if (0 : Int) ≤ 2 ∧ (2 : Int) < sample_plugin.program_count then
              [ Call.cc 0 74 127, Call.cc 0 71 0, Call.cc 0 73 0,
                Call.cc 0 75 0, Call.cc 0 70 0, Call.cc 0 72 0 ]
            else [])
      ∧ (∀ ports' : Ports, ports'.program_port = switch_to_2.program_port →
          ports'.level_port = switch_to_2.level_port →
          ports'.events_in = switch_to_2.events_in →
          (run sample_plugin ports' 0).2 = (run sample_plugin switch_to_2 0).2))
    ∧ (run sample_plugin switch_to_2 0).2
        = [ Call.all_notes_off (-1), Call.all_sounds_off (-1),
            Call.cc 0 74 127, Call.cc 0 71 0, Call.cc 0 73 0,
            Call.cc 0 75 0, Call.cc 0 70 0, Call.cc 0 72 0,
            Call.bank_select 0 128, Call.program_change 0 0, Call.set_gain 1 ] :=
  ⟨by decide!, run_program_change_skips_dispatch sample_plugin switch_to_2 0 2 (by decide!),
    by decide!⟩

/-- C7: in a cycle in which the program port asks for a switch, the six stored
previous values are after the cycle what they were before it. -/
theorem run_program_change_keeps_shadows (plugin : Plugin) (ports : Ports) (n : Nat) (r : Int)
    (hsw : program_switch plugin ports = some r) :
    (run plugin ports n).1.prev_cutoff = plugin.prev_cutoff
    ∧ (run plugin ports n).1.prev_resonance = plugin.prev_resonance
    ∧ (run plugin ports n).1.prev_attack = plugin.prev_attack
    ∧ (run plugin ports n).1.prev_decay = plugin.prev_decay
    ∧ (run plugin ports n).1.prev_sustain = plugin.prev_sustain
    ∧ (run plugin ports n).1.prev_release = plugin.prev_release := by
  rw [run_switch plugin ports n r hsw]
  exact ⟨rfl, rfl, rfl, rfl, rfl, rfl⟩

theorem run_program_change_keeps_shadows_witness :
    program_switch sample_plugin switch_to_2 = some 2
    ∧ ((run sample_plugin switch_to_2 0).1.prev_cutoff = sample_plugin.prev_cutoff
      ∧ (run sample_plugin switch_to_2 0).1.prev_resonance = sample_plugin.prev_resonance
      ∧ (run sample_plugin switch_to_2 0).1.prev_attack = sample_plugin.prev_attack
      ∧ (run sample_plugin switch_to_2 0).1.prev_decay = sample_plugin.prev_decay
      ∧ (run sample_plugin switch_to_2 0).1.prev_sustain = sample_plugin.prev_sustain
      ∧ (run sample_plugin switch_to_2 0).1.prev_release = sample_plugin.prev_release) :=
  ⟨by decide!, run_program_change_keeps_shadows sample_plugin switch_to_2 0 2 (by decide!)⟩

/-! ### Render loop -/

theorem render_loop_zero (offset : Nat) : render_loop 0 offset = [] := by
  rw [render_loop]
  simp

theorem render_loop_step (remaining offset : Nat) (h : 0 < remaining) :
    render_loop remaining offset
      = render_chunk offset (min BUFFER_SIZE remaining)
          ++ render_loop ((remaining - min BUFFER_SIZE remaining) % 2 ^ 32)
              ((offset + min BUFFER_SIZE remaining) % 2 ^ 32) := by
  have hmin : (if remaining > BUFFER_SIZE then BUFFER_SIZE else remaining)
      = min BUFFER_SIZE remaining := by
    unfold BUFFER_SIZE
    split <;> omega
  rw [render_loop]
  simp only [gt_iff_lt, h, if_true, render_chunk]
  rw [hmin]

theorem render_loop_from (remaining : Nat) :
    ∀ offset : Nat, offset + remaining < 2 ^ 32 →
      render_loop remaining offset
        = (List.range ((remaining + 63) / 64)).flatMap
            (fun k => render_chunk (offset + 64 * k) (min 64 (remaining - 64 * k))) := by
  induction remaining using Nat.strong_induction_on with
  | _ remaining ih =>
    intro offset hlt
    rcases Nat.eq_zero_or_pos remaining with h0 | hpos
    · subst h0
      simp [render_loop_zero]
    · rw [render_loop_step remaining offset hpos]
      simp only [BUFFER_SIZE]
      by_cases hbig : 64 < remaining
      · have hmin : min 64 remaining = 64 := by omega
        have hcnt : (remaining + 63) / 64 = (remaining - 64 + 63) / 64 + 1 := by omega
        rw [hmin, Nat.mod_eq_of_lt (by omega : remaining - 64 < 2 ^ 32),
          Nat.mod_eq_of_lt (by omega : offset + 64 < 2 ^ 32),
          ih (remaining - 64) (by omega) (offset + 64) (by omega), hcnt,
          List.range_succ_eq_map, List.flatMap_cons, List.flatMap_map]
        congr 1
        · simp [hmin]
        · refine List.flatMap_congr ?_
          intro k _
          simp only [Function.comp, Nat.succ_eq_add_one]
          congr 1
          · omega
          · omega
      · have hmin : min 64 remaining = remaining := by omega
        have hcnt : (remaining + 63) / 64 = 1 := by omega
        rw [hmin, Nat.sub_self, Nat.zero_mod, render_loop_zero, hcnt]
        simp [List.range_succ, hmin]

theorem chunk_sum (N : Nat) :
    ((List.range ((N + 63) / 64)).map (fun k => min 64 (N - 64 * k))).sum = N := by
  induction N using Nat.strong_induction_on with
  | _ N ih =>
    rcases Nat.eq_zero_or_pos N with h0 | hpos
    · subst h0; simp
    · by_cases hbig : 64 < N
      · have hcnt : (N + 63) / 64 = (N - 64 + 63) / 64 + 1 := by omega
        have hmap : (List.range ((N - 64 + 63) / 64)).map
              ((fun k => min 64 (N - 64 * k)) ∘ Nat.succ)
            = (List.range ((N - 64 + 63) / 64)).map (fun k => min 64 (N - 64 - 64 * k)) := by
          refine List.map_congr_left ?_
          intro k _
          simp only [Function.comp, Nat.succ_eq_add_one]
          omega
        rw [hcnt, List.range_succ_eq_map, List.map_cons, List.map_map, List.sum_cons, hmap,
          ih (N - 64) (by omega)]
        omega
      · have hcnt : (N + 63) / 64 = 1 := by omega
        rw [hcnt]
        simp [List.range_succ]
        omega

theorem render_chunk_renders (offset len : Nat) :
    (render_chunk offset len).filter Call.is_render = [Call.write_float len] := by
  simp [render_chunk, Call.is_render]

theorem chunks_renders (l : List Nat) (f g : Nat → Nat) :
    (l.flatMap (fun k => render_chunk (f k) (g k))).filter Call.is_render
      = l.map (fun k => Call.write_float (g k)) := by
  induction l with
  | nil => rfl
  | cons a l ih =>
    rw [List.flatMap_cons, List.filter_append, ih, render_chunk_renders]
    rfl

theorem chunk_count_eq_ceil (N : Nat) : (((N + 63) / 64 : Nat) : Int) = ⌈(N : ℚ) / 64⌉ := by
  have h1 : N ≤ 64 * ((N + 63) / 64) := by omega
  have h2 : 64 * ((N + 63) / 64) < N + 64 := by omega
  generalize (N + 63) / 64 = c at h1 h2 ⊢
  have h1q : (N : ℚ) ≤ 64 * (c : ℚ) := by exact_mod_cast h1
  have h2q : 64 * (c : ℚ) < (N : ℚ) + 64 := by exact_mod_cast h2
  symm
  rw [Int.ceil_eq_iff]
  constructor
  · rw [lt_div_iff₀ (by norm_num : (0 : ℚ) < 64)]
    push_cast
    linarith
  · rw [div_le_iff₀ (by norm_num : (0 : ℚ) < 64)]
    push_cast
    linarith

theorem control_update_no_render (port : Option CFloat) (prev : CFloat) (ctrl : Int) :
    (control_update port prev ctrl).2.filter Call.is_render = [] := by
  unfold control_update
  cases port with
  | none => rfl
  | some v => by_cases hv : v.ne prev = true <;> simp [hv, Call.is_render]

theorem run_controls_no_render (plugin : Plugin) (ports : Ports) :
    (run_controls plugin ports).2.filter Call.is_render = [] := by
  unfold run_controls
  cases program_switch plugin ports with
  | none =>
    simp [dispatch_controls, List.filter_append, control_update_no_render]
  | some r =>
    simp only [handle_program_change]
    split_ifs <;> simp [Call.is_render]

theorem run_level_no_render (ports : Ports) : (run_level ports).filter Call.is_render = [] := by
  unfold run_level
  cases ports.level_port <;> simp [Call.is_render]

theorem process_event_no_render (midi_Event : Nat) (ev : Event) :
    (process_event midi_Event ev).filter Call.is_render = [] := by
  unfold process_event
  split_ifs <;> simp [Call.is_render]

theorem event_loop_no_render (midi_Event : Nat) (evs : List Event) :
    (event_loop midi_Event evs).filter Call.is_render = [] := by
  induction evs with
  | nil => rfl
  | cons ev evs ih =>
    rw [event_loop, List.filter_append, ih, process_event_no_render]
    rfl

/-- C8: for a frame count `N` below 2^32 the render loop ends, and its calls
are, for k = 0, 1, ... below (N + 63) / 64 = ceil(N / 64): one engine render
call for min(64, N - 64k) frames followed by the copies of that many frames to
offset 64k of the left and of the right output buffer.  Every length is
between 1 and 64, every chunk but the last starts where the previous one
ends, the last ends at `N`, the lengths add up to `N`, and for `N = 0` there
is no call.  These render calls are all the render calls of `run`. -/
theorem render_loop_chunks (N : Nat) (hN : N < 2 ^ 32) :
    render_loop N 0
        = (List.range ((N + 63) / 64)).flatMap (fun k =>
            [ Call.write_float (min 64 (N - 64 * k)),
              Call.memcpy_out_l (64 * k) (min 64 (N - 64 * k)),
              Call.memcpy_out_r (64 * k) (min 64 (N - 64 * k)) ])
    ∧ ((render_loop N 0).filter Call.is_render).length = (N + 63) / 64
    ∧ (((N + 63) / 64 : Nat) : Int) = ⌈(N : ℚ) / 64⌉
    ∧ (∀ k, k < (N + 63) / 64 → 1 ≤ min 64 (N - 64 * k) ∧ min 64 (N - 64 * k) ≤ 64)
    ∧ (∀ k, k + 1 < (N + 63) / 64 → 64 * k + min 64 (N - 64 * k) = 64 * (k + 1))
    ∧ (∀ k, k + 1 = (N + 63) / 64 → 64 * k + min 64 (N - 64 * k) = N)
    ∧ ((List.range ((N + 63) / 64)).map (fun k => min 64 (N - 64 * k))).sum = N
    ∧ (N = 0 → render_loop N 0 = [])
    ∧ (∀ (plugin : Plugin) (ports : Ports),
        (run plugin ports N).2.filter Call.is_render
          = (List.range ((N + 63) / 64)).map (fun k => Call.write_float (min 64 (N - 64 * k))))
    := by
  have hloop := render_loop_from N 0 (by omega)
  simp only [Nat.zero_add] at hloop
  have hren : (render_loop N 0).filter Call.is_render
      = (List.range ((N + 63) / 64)).map (fun k => Call.write_float (min 64 (N - 64 * k))) := by
    rw [hloop]
    exact chunks_renders _ (fun k => 64 * k) (fun k => min 64 (N - 64 * k))
  refine ⟨hloop, ?_, chunk_count_eq_ceil N, ?_, ?_, ?_, chunk_sum N, ?_, ?_⟩
  · rw [hren, List.length_map, List.length_range]
  · intro k hk
    omega
  · intro k hk
    omega
  · intro k hk
    omega
  · intro h0
    subst h0
    exact render_loop_zero 0
  · intro plugin ports
    simp only [run, List.filter_append, run_controls_no_render, run_level_no_render,
      event_loop_no_render, List.nil_append, hren]

theorem render_loop_chunks_witness :
    130 < 2 ^ 32
    ∧ (render_loop 130 0
          = (List.range ((130 + 63) / 64)).flatMap (fun k =>
              [ Call.write_float (min 64 (130 - 64 * k)),
                Call.memcpy_out_l (64 * k) (min 64 (130 - 64 * k)),
                Call.memcpy_out_r (64 * k) (min 64 (130 - 64 * k)) ])
      ∧ ((render_loop 130 0).filter Call.is_render).length = (130 + 63) / 64
      ∧ (((130 + 63) / 64 : Nat) : Int) = ⌈((130 : Nat) : ℚ) / 64⌉
      ∧ (∀ k, k < (130 + 63) / 64 → 1 ≤ min 64 (130 - 64 * k) ∧ min 64 (130 - 64 * k) ≤ 64)
      ∧ (∀ k, k + 1 < (130 + 63) / 64 → 64 * k + min 64 (130 - 64 * k) = 64 * (k + 1))
      ∧ (∀ k, k + 1 = (130 + 63) / 64 → 64 * k + min 64 (130 - 64 * k) = 130)
      ∧ ((List.range ((130 + 63) / 64)).map (fun k => min 64 (130 - 64 * k))).sum = 130
      ∧ (130 = 0 → render_loop 130 0 = [])
      ∧ (∀ (plugin : Plugin) (ports : Ports),
          (run plugin ports 130).2.filter Call.is_render
            = (List.range ((130 + 63) / 64)).map
                (fun k => Call.write_float (min 64 (130 - 64 * k)))))
    ∧ render_loop 130 0
        = [ Call.write_float 64, Call.memcpy_out_l 0 64, Call.memcpy_out_r 0 64,
            Call.write_float 64, Call.memcpy_out_l 64 64, Call.memcpy_out_r 64 64,
            Call.write_float 2, Call.memcpy_out_l 128 2, Call.memcpy_out_r 128 2 ] :=
  ⟨by decide, render_loop_chunks 130 (by decide), by decide!⟩

/-! ### Event loop -/

theorem event_loop_eq_flatMap (midi_Event : Nat) (evs : List Event) :
    event_loop midi_Event evs = evs.flatMap (process_event midi_Event) := by
  induction evs with
  | nil => rfl
  | cons ev evs ih => rw [event_loop, ih, List.flatMap_cons]

/-- C9: for an event of the MIDI event type, the event loop of `run` makes one
call chosen by the status tag `msg[0] & 0xF0`: tag 0x90 with `msg[2] > 0`
gives note-on of key `msg[1]` with velocity `msg[2]`; tag 0x90 with
`msg[2] = 0`, and tag 0x80, give note-off of key `msg[1]`; tag 0xB0 gives a
controller call with controller `msg[1]` and value `msg[2]` as they are.  The
events of a cycle have no effect on the plugin state, the stored control
values included. -/
theorem process_event_translation (midi_Event : Nat) (ev : Event)
    (hty : ev.body_type = midi_Event) :
    (ev.msg0 &&& 0xF0 = 0x90 → 0 < ev.msg2 →
        process_event midi_Event ev = [Call.noteon 0 ev.msg1 ev.msg2])
    ∧ (ev.msg0 &&& 0xF0 = 0x90 → ev.msg2 = 0 →
        process_event midi_Event ev = [Call.noteoff 0 ev.msg1])
    ∧ (ev.msg0 &&& 0xF0 = 0x80 →
        process_event midi_Event ev = [Call.noteoff 0 ev.msg1])
    ∧ (ev.msg0 &&& 0xF0 = 0xB0 →
        process_event midi_Event ev = [Call.cc 0 ev.msg1 ev.msg2])
    ∧ (∀ (plugin : Plugin) (ports : Ports) (n : Nat) (evs : List Event),
        (run plugin { ports with events_in := evs } n).1 = (run plugin ports n).1) := by
  refine ⟨?_, ?_, ?_, ?_, ?_⟩
  · intro htag hvel
    simp [process_event, hty, htag, hvel]
  · intro htag hvel
    simp [process_event, hty, htag, hvel]
  · intro htag
    simp [process_event, hty, htag]
  · intro htag
    simp [process_event, hty, htag]
  · intro plugin ports n evs
    rfl

theorem process_event_translation_witness :
    note_on_60.body_type = 7
    ∧ ((note_on_60.msg0 &&& 0xF0 = 0x90 → 0 < note_on_60.msg2 →
          process_event 7 note_on_60 = [Call.noteon 0 note_on_60.msg1 note_on_60.msg2])
      ∧ (note_on_60.msg0 &&& 0xF0 = 0x90 → note_on_60.msg2 = 0 →
          process_event 7 note_on_60 = [Call.noteoff 0 note_on_60.msg1])
      ∧ (note_on_60.msg0 &&& 0xF0 = 0x80 →
          process_event 7 note_on_60 = [Call.noteoff 0 note_on_60.msg1])
      ∧ (note_on_60.msg0 &&& 0xF0 = 0xB0 →
          process_event 7 note_on_60 = [Call.cc 0 note_on_60.msg1 note_on_60.msg2])
      ∧ (∀ (plugin : Plugin) (ports : Ports) (n : Nat) (evs : List Event),
          (run plugin { ports with events_in := evs } n).1 = (run plugin ports n).1))
    ∧ process_event 7 note_on_60 = [Call.noteon 0 60 100]
    ∧ process_event 7 { note_on_60 with msg2 := 0 } = [Call.noteoff 0 60]
    ∧ process_event 7 { body_type := 7, msg0 := 0x80, msg1 := 60, msg2 := 64 }
        = [Call.noteoff 0 60]
    ∧ process_event 7 { body_type := 7, msg0 := 0xB1, msg1 := 7, msg2 := 200 }
        = [Call.cc 0 7 200] :=
  ⟨rfl, process_event_translation 7 note_on_60 rfl,
    by decide!, by decide!, by decide!, by decide!⟩

theorem process_event_length (midi_Event : Nat) (ev : Event) :
    (process_event midi_Event ev).length
      = if ev.body_type = midi_Event
          ∧ (ev.msg0 &&& 0xF0 = 0x80 ∨ ev.msg0 &&& 0xF0 = 0x90
              ∨ ev.msg0 &&& 0xF0 = 0xB0 ∨ ev.msg0 &&& 0xF0 = 0xE0)
        then 1 else 0 := by
  unfold process_event
  by_cases hty : ev.body_type = midi_Event
  · by_cases h90 : ev.msg0 &&& 0xF0 = 0x90
    · by_cases hv : ev.msg2 > 0 <;> simp [hty, h90, hv]
    · by_cases h80 : ev.msg0 &&& 0xF0 = 0x80
      · simp [hty, h80]
      · by_cases hB0 : ev.msg0 &&& 0xF0 = 0xB0
        · simp [hty, hB0]
        · by_cases hE0 : ev.msg0 &&& 0xF0 = 0xE0
          · simp [hty, hE0]
          · simp [hty, h90, h80, hB0, hE0]
  · simp [hty]

/-- C10: the calls of the event loop of `run` are the calls of the events one
after the other, in buffer order (so the calls for a buffer `a ++ b` are those
for `a` followed by those for `b`); an event contributes exactly one call when
it is of the MIDI event type and its tag `msg[0] & 0xF0` is 0x80, 0x90, 0xB0 or
0xE0, and none otherwise; these calls stand in `run` between the level call
and the render calls.  The buffer note-on(60, 100), note-on(60, 0) yields
note-on(60, 100) then note-off(60), and a program-change message (tag 0xC0),
aftertouch (0xA0, 0xD0) or an event of another type yields nothing. -/
theorem event_loop_in_order (midi_Event : Nat) (evs : List Event) :
    event_loop midi_Event evs = evs.flatMap (process_event midi_Event)
    ∧ (∀ ev : Event, (process_event midi_Event ev).length
        = if ev.body_type = midi_Event
            ∧ (ev.msg0 &&& 0xF0 = 0x80 ∨ ev.msg0 &&& 0xF0 = 0x90
                ∨ ev.msg0 &&& 0xF0 = 0xB0 ∨ ev.msg0 &&& 0xF0 = 0xE0)
          then 1 else 0)
    ∧ (∀ a b : List Event,
        event_loop midi_Event (a ++ b) = event_loop midi_Event a ++ event_loop midi_Event b)
    ∧ (∀ (plugin : Plugin) (ports : Ports) (n : Nat),
        (run plugin ports n).2
          = (run_controls plugin ports).2 ++ run_level ports
              ++ event_loop plugin.midi_Event ports.events_in ++ render_loop n 0)
    ∧ event_loop 7 note_on_then_off = [Call.noteon 0 60 100, Call.noteoff 0 60]
    ∧ event_loop 7
        [ { body_type := 7, msg0 := 0xC0, msg1 := 5, msg2 := 0 },
          { body_type := 7, msg0 := 0xA0, msg1 := 60, msg2 := 9 },
          { body_type := 7, msg0 := 0xD0, msg1 := 9, msg2 := 0 },
          { body_type := 8, msg0 := 0x90, msg1 := 60, msg2 := 100 } ] = [] := by
  refine ⟨event_loop_eq_flatMap midi_Event evs, process_event_length midi_Event, ?_, ?_,
    by decide!, by decide!⟩
  · intro a b
    simp only [event_loop_eq_flatMap, List.flatMap_append]
  · intro plugin ports n
    rfl

/-! ### Pitch bend -/

theorem shift7_or (low high : Nat) (hlow : low < 128) :
    (high <<< 7) ||| low = high * 128 + low := by
  have h := Nat.mul_add_lt_is_or (show low < 2 ^ 7 by omega) high
  rw [Nat.shiftLeft_eq, ← Nat.mul_comm (2 ^ 7) high, ← h]

/-- C11: for an event of the MIDI event type with tag 0xE0 whose data bytes
`low = msg[1]` and `high = msg[2]` are below 128, the event loop makes one
pitch-bend call on channel 0 whose value `(msg[2] << 7) | msg[1]` is
`high * 128 + low`; it lies in [0, 16383], and two such events with the same
value have the same data bytes. -/
theorem process_event_pitch_bend (midi_Event : Nat) (ev : Event)
    (hty : ev.body_type = midi_Event) (htag : ev.msg0 &&& 0xF0 = 0xE0)
    (hlow : ev.msg1 < 128) (hhigh : ev.msg2 < 128) :
    process_event midi_Event ev
        = [Call.pitch_bend 0 (((ev.msg2 <<< 7) ||| ev.msg1 : Nat) : Int)]
    ∧ (ev.msg2 <<< 7) ||| ev.msg1 = ev.msg2 * 128 + ev.msg1
    ∧ (ev.msg2 <<< 7) ||| ev.msg1 ≤ 16383
    ∧ (∀ ev' : Event, ev'.msg1 < 128 → ev'.msg2 < 128 →
        (ev'.msg2 <<< 7) ||| ev'.msg1 = (ev.msg2 <<< 7) ||| ev.msg1 →
        ev'.msg2 = ev.msg2 ∧ ev'.msg1 = ev.msg1) := by
  have hval := shift7_or ev.msg1 ev.msg2 hlow
  refine ⟨?_, hval, ?_, ?_⟩
  · simp [process_event, hty, htag]
  · rw [hval]; omega
  · intro ev' hlow' hhigh' heq
    rw [hval, shift7_or ev'.msg1 ev'.msg2 hlow'] at heq
    omega

theorem process_event_pitch_bend_witness :
    pitch_bend_sample.body_type = 7 ∧ pitch_bend_sample.msg0 &&& 0xF0 = 0xE0
    ∧ pitch_bend_sample.msg1 < 128 ∧ pitch_bend_sample.msg2 < 128
    ∧ (process_event 7 pitch_bend_sample
          = [Call.pitch_bend 0
              (((pitch_bend_sample.msg2 <<< 7) ||| pitch_bend_sample.msg1 : Nat) : Int)]
      ∧ (pitch_bend_sample.msg2 <<< 7) ||| pitch_bend_sample.msg1
          = pitch_bend_sample.msg2 * 128 + pitch_bend_sample.msg1
      ∧ (pitch_bend_sample.msg2 <<< 7) ||| pitch_bend_sample.msg1 ≤ 16383
      ∧ (∀ ev' : Event, ev'.msg1 < 128 → ev'.msg2 < 128 →
          (ev'.msg2 <<< 7) ||| ev'.msg1
            = (pitch_bend_sample.msg2 <<< 7) ||| pitch_bend_sample.msg1 →
          ev'.msg2 = pitch_bend_sample.msg2 ∧ ev'.msg1 = pitch_bend_sample.msg1))
    ∧ process_event 7 pitch_bend_sample = [Call.pitch_bend 0 8609] :=
  ⟨rfl, by decide!, by decide, by decide,
    process_event_pitch_bend 7 pitch_bend_sample rfl (by decide!) (by decide) (by decide),
    by decide!⟩

/-! ### Instantiation with an empty sound bank -/

/-- C12: a sound bank that loads but has no preset is not refused.  With a
`calloc` that returns a non-null pointer for zero entries, `load_soundfont`
counts 0 presets and returns the sound bank id, and `instantiate` returns an
instance whose `program_count` is 0 and whose table is empty.  Only with a
`calloc` that returns null for zero entries is the instance refused. -/
theorem instantiate_accepts_empty_bank :
    count_pass empty_soundfont.get_preset = 0
    ∧ (load_soundfont empty_soundfont Plugin.zeroed).1 = 1
    ∧ (instantiate (Host.working empty_soundfont)).map (fun p => (p.program_count, p.programs))
        = some (0, [])
    ∧ instantiate (Host.working empty_soundfont_null_calloc) = none := by
  decide!

/-! ### Consecutive cycles -/

/-- C14: the instance that `instantiate` returns for the catalog
[(0,0), (0,1), (128,0)] has `current_program = -1` and `program_count = 3`;
after one cycle whose program port holds 5 its `current_program` is 5, which
is neither -1 nor an index of the table. -/
theorem current_program_leaves_catalog :
    instantiate (Host.working sample_soundfont) = some sample_plugin
    ∧ sample_plugin.current_program = -1
    ∧ sample_plugin.program_count = 3
    ∧ (run_cycles sample_plugin [(request_5, 0)]).1.current_program = 5
    ∧ ¬ ((run_cycles sample_plugin [(request_5, 0)]).1.current_program = -1
        ∨ (0 ≤ (run_cycles sample_plugin [(request_5, 0)]).1.current_program
          ∧ (run_cycles sample_plugin [(request_5, 0)]).1.current_program
              < (run_cycles sample_plugin [(request_5, 0)]).1.program_count)) := by
  decide!

/-- C19: in two consecutive cycles with the level port connected and holding
1.0 both times, the second cycle calls `fluid_synth_set_gain` again. -/
theorem set_gain_sent_every_cycle :
    (run sample_plugin level_one 0).2 = [Call.set_gain 1]
    ∧ (run (run sample_plugin level_one 0).1 level_one 0).2 = [Call.set_gain 1]
    ∧ (run_cycles sample_plugin [(level_one, 0), (level_one, 0)]).2.filter Call.is_set_gain
        = [Call.set_gain 1, Call.set_gain 1] := by
  decide!

theorem run_keeps_table (plugin : Plugin) (ports : Ports) (n : Nat) :
    (run plugin ports n).1.programs = plugin.programs
    ∧ (run plugin ports n).1.program_count = plugin.program_count
    ∧ (run plugin ports n).1.midi_Event = plugin.midi_Event := by
  unfold run run_controls
  cases program_switch plugin ports with
  | none => exact ⟨rfl, rfl, rfl⟩
  | some r => exact ⟨rfl, rfl, rfl⟩

theorem program_switch_of_request (plugin : Plugin) (ports : Ports) (x : ℚ) (i : Int)
    (hport : ports.program_port = some x) (hreq : new_program x = i) (h0 : 0 ≤ i) :
    program_switch plugin ports = if i = plugin.current_program then none else some i := by
  unfold program_switch
  rw [hport]
  simp only [hreq]
  by_cases hc : i = plugin.current_program
  · simp [hc]
  · simp [hc, h0]

theorem control_update_no_select (port : Option CFloat) (prev : CFloat) (ctrl : Int) :
    (control_update port prev ctrl).2.filter Call.is_select = [] := by
  unfold control_update
  cases port with
  | none => rfl
  | some v => by_cases hv : v.ne prev = true <;> simp [hv, Call.is_select]

theorem dispatch_controls_no_select (plugin : Plugin) (ports : Ports) :
    (dispatch_controls plugin ports).2.filter Call.is_select = [] := by
  simp [dispatch_controls, List.filter_append, control_update_no_select]

theorem run_level_no_select (ports : Ports) : (run_level ports).filter Call.is_select = [] := by
  unfold run_level
  cases ports.level_port <;> simp [Call.is_select]

theorem process_event_no_select (midi_Event : Nat) (ev : Event) :
    (process_event midi_Event ev).filter Call.is_select = [] := by
  unfold process_event
  split_ifs <;> simp [Call.is_select]

theorem event_loop_no_select (midi_Event : Nat) (evs : List Event) :
    (event_loop midi_Event evs).filter Call.is_select = [] := by
  induction evs with
  | nil => rfl
  | cons ev evs ih =>
    rw [event_loop, List.filter_append, ih, process_event_no_select]
    rfl

theorem render_loop_no_select (remaining : Nat) :
    ∀ offset : Nat, (render_loop remaining offset).filter Call.is_select = [] := by
  induction remaining using Nat.strong_induction_on with
  | _ remaining ih =>
    intro offset
    rcases Nat.eq_zero_or_pos remaining with h0 | hpos
    · subst h0
      rw [render_loop_zero]
      rfl
    · have hlt : (remaining - min BUFFER_SIZE remaining) % 2 ^ 32 < remaining := by
        have : 0 < min BUFFER_SIZE remaining := by
          unfold BUFFER_SIZE
          omega
        have := Nat.mod_le (remaining - min BUFFER_SIZE remaining) (2 ^ 32)
        omega
      rw [render_loop_step remaining offset hpos, List.filter_append, ih _ hlt]
      simp [render_chunk, Call.is_select]

theorem handle_program_change_select (plugin : Plugin) (i : Int)
    (h0 : 0 ≤ i) (h1 : i < plugin.program_count) :
    (handle_program_change plugin i).filter Call.is_select
      = [ Call.bank_select 0 (plugin.programs.getD i.toNat { bank := 0, prog := 0 }).bank,
          Call.program_change 0 (plugin.programs.getD i.toNat { bank := 0, prog := 0 }).prog ] := by
  have hnot : ¬ (i < 0 ∨ i ≥ plugin.program_count) := by omega
  simp [handle_program_change, hnot, Call.is_select]

/-- One cycle that asks for the valid index `i`: a switch with the full
sequence when `i` is not the current program, no preset selection when it is;
either way `i` is the current program afterwards. -/
theorem run_request (plugin : Plugin) (ports : Ports) (n : Nat) (x : ℚ) (i : Int)
    (hport : ports.program_port = some x) (hreq : new_program x = i)
    (h0 : 0 ≤ i) (h1 : i < plugin.program_count) :
    (run plugin ports n).1.current_program = i
    ∧ (run plugin ports n).2.filter Call.is_select
        = (if plugin.current_program = i then []
           else [ Call.bank_select 0 (plugin.programs.getD i.toNat { bank := 0, prog := 0 }).bank,
                  Call.program_change 0
                    (plugin.programs.getD i.toNat { bank := 0, prog := 0 }).prog ]) := by
  have hsw := program_switch_of_request plugin ports x i hport hreq h0
  by_cases hc : i = plugin.current_program
  · rw [if_pos hc] at hsw
    rw [run_idle plugin ports n hsw, if_pos hc.symm]
    refine ⟨hc.symm, ?_⟩
    simp only [List.filter_append, dispatch_controls_no_select, run_level_no_select,
      event_loop_no_select, render_loop_no_select, List.append_nil]
  · rw [if_neg hc] at hsw
    rw [run_switch plugin ports n i hsw, if_neg (fun h => hc h.symm)]
    refine ⟨rfl, ?_⟩
    simp only [List.filter_append, handle_program_change_select plugin i h0 h1,
      run_level_no_select, event_loop_no_select, render_loop_no_select, List.append_nil]

theorem run_cycles_request (i : Int) (cycles : List (Ports × Nat)) :
    ∀ plugin : Plugin, 0 ≤ i → i < plugin.program_count →
      (∀ c ∈ cycles, ∃ x : ℚ, c.1.program_port = some x ∧ new_program x = i) →
      cycles ≠ [] →
      (run_cycles plugin cycles).1.current_program = i
      ∧ (run_cycles plugin cycles).2.filter Call.is_select
          = (if plugin.current_program = i then []
             else [ Call.bank_select 0
                      (plugin.programs.getD i.toNat { bank := 0, prog := 0 }).bank,
                    Call.program_change 0
                      (plugin.programs.getD i.toNat { bank := 0, prog := 0 }).prog ]) := by
  induction cycles with
  | nil => intro _ _ _ _ hne; exact absurd rfl hne
  | cons c rest ih =>
    intro plugin h0 h1 hreq _
    obtain ⟨x, hport, hx⟩ := hreq c (List.mem_cons_self _ _)
    obtain ⟨hcur, hsel⟩ := run_request plugin c.1 c.2 x i hport hx h0 h1
    obtain ⟨_, hcount, _⟩ := run_keeps_table plugin c.1 c.2
    simp only [run_cycles, List.filter_append, hsel]
    cases rest with
    | nil => simp [run_cycles, hcur]
    | cons c2 rest2 =>
      have h := ih (run plugin c.1 c.2).1 h0 (by rw [hcount]; exact h1)
        (fun c' hc' => hreq c' (List.mem_cons_of_mem _ hc')) (List.cons_ne_nil _ _)
      rw [if_pos hcur] at h
      exact ⟨h.1, by rw [h.2, List.append_nil]⟩

/-- C15, as stated, fails: after a first cycle that asks for program 2 and
makes the calls of the reset sequence, a second cycle that asks for program 2
again makes no call at all. -/
theorem repeated_request_not_retriggered :
    new_program 2 = 2
    ∧ (run sample_plugin request_2 0).2
        = [ Call.all_notes_off (-1), Call.all_sounds_off (-1),
            Call.cc 0 74 127, Call.cc 0 71 0, Call.cc 0 73 0,
            Call.cc 0 75 0, Call.cc 0 70 0, Call.cc 0 72 0,
            Call.bank_select 0 128, Call.program_change 0 0 ]
    ∧ (run (run sample_plugin request_2 0).1 request_2 0).2 = [] := by
  decide!

/-- C15, amended: for a table of `program_count` entries, a valid index `i`
and any starting state, let every cycle of a non-empty run of cycles ask for
`i`.  The reset sequence is made in the first cycle only, and only when `i` is
not already the current program: a cycle that asks for the current program
makes no program-change call.  So over all the cycles the preset selections
sent are exactly bank select of `programs[i].bank` followed by program change
to `programs[i].prog` (or none when `i` was current at the start), and
afterwards `current_program = i`. -/
theorem repeated_request_selects_once (plugin : Plugin) (i : Int) (cycles : List (Ports × Nat))
    (h0 : 0 ≤ i) (h1 : i < plugin.program_count)
    (hlen : plugin.program_count = (plugin.programs.length : Int))
    (hreq : ∀ c ∈ cycles, ∃ x : ℚ, c.1.program_port = some x ∧ new_program x = i)
    (hne : cycles ≠ []) :
    (run_cycles plugin cycles).1.current_program = i
    ∧ ∃ e : BankProgram, plugin.programs[i.toNat]? = some e
      ∧ (run_cycles plugin cycles).2.filter Call.is_select
          = (if plugin.current_program = i then []
             else [Call.bank_select 0 e.bank, Call.program_change 0 e.prog])
      ∧ (∀ (c : Ports × Nat) (rest : List (Ports × Nat)), cycles = c :: rest →
          (plugin.current_program ≠ i →
            (run plugin c.1 c.2).2
              = [ Call.all_notes_off (-1), Call.all_sounds_off (-1),
                  Call.cc 0 74 127, Call.cc 0 71 0, Call.cc 0 73 0,
                  Call.cc 0 75 0, Call.cc 0 70 0, Call.cc 0 72 0,
                  Call.bank_select 0 e.bank, Call.program_change 0 e.prog ]
                ++ run_level c.1 ++ event_loop plugin.midi_Event c.1.events_in
                ++ render_loop c.2 0)
          ∧ (plugin.current_program = i →
            (run plugin c.1 c.2).2
              = (dispatch_controls plugin c.1).2 ++ run_level c.1
                  ++ event_loop plugin.midi_Event c.1.events_in ++ render_loop c.2 0)
          ∧ (run plugin c.1 c.2).1.current_program = i
          ∧ (rest ≠ [] → (run_cycles (run plugin c.1 c.2).1 rest).2.filter Call.is_select = []))
    := by
  have hi : i.toNat < plugin.programs.length := by omega
  have hget : plugin.programs.getD i.toNat { bank := 0, prog := 0 } = plugin.programs[i.toNat] := by
    rw [List.getD_eq_getElem?_getD, List.getElem?_eq_getElem hi, Option.getD_some]
  obtain ⟨hcur, hsel⟩ := run_cycles_request i cycles plugin h0 h1 hreq hne
  rw [hget] at hsel
  refine ⟨hcur, plugin.programs[i.toNat], List.getElem?_eq_getElem hi, hsel, ?_⟩
  intro c rest hcons
  subst hcons
  obtain ⟨x, hport, hx⟩ := hreq c (List.mem_cons_self _ _)
  have hsw := program_switch_of_request plugin c.1 x i hport hx h0
  obtain ⟨hcur1, _⟩ := run_request plugin c.1 c.2 x i hport hx h0 h1
  obtain ⟨_, hcount, _⟩ := run_keeps_table plugin c.1 c.2
  refine ⟨?_, ?_, hcur1, ?_⟩
  · intro hc
    rw [if_neg (fun h => hc h.symm)] at hsw
    rw [run_switch plugin c.1 c.2 i hsw]
    have hnot : ¬ (i < 0 ∨ i ≥ plugin.program_count) := by omega
    simp only [handle_program_change, hnot, if_false, hget, CC_CUTOFF, CC_RESONANCE, CC_ATTACK,
      CC_DECAY, CC_SUSTAIN, CC_RELEASE]
  · intro hc
    rw [if_pos hc.symm] at hsw
    rw [run_idle plugin c.1 c.2 hsw]
  · intro hrest
    have h := run_cycles_request i rest (run plugin c.1 c.2).1 h0 (by rw [hcount]; exact h1)
      (fun c' hc' => hreq c' (List.mem_cons_of_mem _ hc')) hrest
    rw [if_pos hcur1] at h
    exact h.2

theorem repeated_request_selects_once_witness :
    (0 : Int) ≤ 2 ∧ (2 : Int) < sample_plugin.program_count
    ∧ sample_plugin.program_count = (sample_plugin.programs.length : Int)
    ∧ (∀ c ∈ [(request_2, 0), (request_2, 0)],
        ∃ x : ℚ, c.1.program_port = some x ∧ new_program x = 2)
    ∧ [(request_2, 0), (request_2, 0)] ≠ []
    ∧ (run_cycles sample_plugin [(request_2, 0), (request_2, 0)]).1.current_program = 2
    ∧ (run_cycles sample_plugin [(request_2, 0), (request_2, 0)]).2.filter Call.is_select
        = [Call.bank_select 0 128, Call.program_change 0 0] := by
  have hreq : ∀ c ∈ [(request_2, 0), (request_2, 0)],
      ∃ x : ℚ, c.1.program_port = some x ∧ new_program x = 2 := by
    intro c hc
    simp only [List.mem_cons, List.mem_singleton, List.not_mem_nil, or_false, or_self] at hc
    subst hc
    exact ⟨2, rfl, by decide!⟩
  have h := repeated_request_selects_once sample_plugin 2 [(request_2, 0), (request_2, 0)]
    (by decide) (by decide) (by decide) hreq (by simp)
  exact ⟨by decide, by decide, by decide, hreq, by simp, h.1, by decide!⟩

/-! ### Unconnected ports -/

theorem control_update_none (prev : CFloat) (ctrl : Int) :
    control_update none prev ctrl = (prev, []) := rfl

theorem run_shadow (plugin : Plugin) (ports : Ports) (n : Nat) (k : Control) :
    k.shadow (run plugin ports n).1
      = (match program_switch plugin ports with
          | some _ => k.shadow plugin
          | none => (control_update (k.port ports) (k.shadow plugin) k.number).1) := by
  unfold run run_controls
  cases program_switch plugin ports with
  | none => exact dispatch_controls_shadow plugin ports k
  | some r => cases k <;> rfl

/-- C17: for each of the six controls, if its port is unconnected then after
any cycle its stored previous value is unchanged and its control block sends
nothing: before the level call, the only calls of `run` to its controller
number are those of a program-change reset, whatever the other ports hold.
If the program port is unconnected, no program change is made, the cycle
runs the six control blocks, and `current_program` is unchanged. -/
theorem run_unconnected (plugin : Plugin) (ports : Ports) (n : Nat) :
    (∀ k : Control, k.port ports = none →
        k.shadow (run plugin ports n).1 = k.shadow plugin
        ∧ (dispatch_controls plugin ports).2.filter (Call.is_cc_to k.number) = []
        ∧ (run_controls plugin ports).2.filter (Call.is_cc_to k.number)
            = (match program_switch plugin ports with
                | some r => (handle_program_change plugin r).filter (Call.is_cc_to k.number)
                | none => []))
    ∧ (ports.program_port = none →
        program_switch plugin ports = none
        ∧ (run plugin ports n).1.current_program = plugin.current_program
        ∧ (run plugin ports n).2
            = (dispatch_controls plugin ports).2 ++ run_level ports
                ++ event_loop plugin.midi_Event ports.events_in ++ render_loop n 0
        ∧ (run plugin ports n).2.filter Call.is_select = []) := by
  constructor
  · intro k hk
    have hd : (dispatch_controls plugin ports).2.filter (Call.is_cc_to k.number) = [] := by
      rw [dispatch_controls_filter, hk, control_update_none]
    refine ⟨?_, hd, ?_⟩
    · rw [run_shadow, hk, control_update_none]
      cases program_switch plugin ports <;> rfl
    · unfold run_controls
      cases program_switch plugin ports with
      | none => exact hd
      | some r => rfl
  · intro hp
    have hsw : program_switch plugin ports = none := by
      unfold program_switch
      rw [hp]
    rw [run_idle plugin ports n hsw]
    refine ⟨hsw, rfl, rfl, ?_⟩
    simp only [List.filter_append, dispatch_controls_no_select, run_level_no_select,
      event_loop_no_select, render_loop_no_select, List.append_nil]

theorem run_unconnected_witness :
    Control.cutoff.port cutoff_absent = none
    ∧ cutoff_absent.program_port = none
    ∧ (Control.cutoff.shadow (run sample_plugin cutoff_absent 0).1
          = Control.cutoff.shadow sample_plugin
      ∧ (dispatch_controls sample_plugin cutoff_absent).2.filter
            (Call.is_cc_to Control.cutoff.number) = []
      ∧ (run_controls sample_plugin cutoff_absent).2.filter
            (Call.is_cc_to Control.cutoff.number)
          = (match program_switch sample_plugin cutoff_absent with
              | some r =>
                (handle_program_change sample_plugin r).filter
                  (Call.is_cc_to Control.cutoff.number)
              | none => []))
    ∧ (program_switch sample_plugin cutoff_absent = none
      ∧ (run sample_plugin cutoff_absent 0).1.current_program = sample_plugin.current_program
      ∧ (run sample_plugin cutoff_absent 0).2
          = (dispatch_controls sample_plugin cutoff_absent).2 ++ run_level cutoff_absent
              ++ event_loop sample_plugin.midi_Event cutoff_absent.events_in
              ++ render_loop 0 0
      ∧ (run sample_plugin cutoff_absent 0).2.filter Call.is_select = [])
    ∧ (run sample_plugin cutoff_absent 0).2
        = [ Call.cc 0 71 31, Call.cc 0 73 15, Call.cc 0 75 95, Call.cc 0 70 127,
            Call.cc 0 72 63 ] :=
  ⟨rfl, rfl, (run_unconnected sample_plugin cutoff_absent 0).1 Control.cutoff rfl,
    (run_unconnected sample_plugin cutoff_absent 0).2 rfl, by decide!⟩

/-! ### Channels -/

theorem and_F0_of_div_16 (a b : Nat) (h : a / 16 = b / 16) : a &&& 0xF0 = b &&& 0xF0 := by
  apply Nat.eq_of_testBit_eq
  intro i
  rw [Nat.testBit_and, Nat.testBit_and]
  by_cases hi : i < 4
  · have h0 : Nat.testBit 0xF0 i = false := by
      interval_cases i <;> decide
    rw [h0, Bool.and_false, Bool.and_false]
  · have hs : a >>> 4 = b >>> 4 := by
      rw [Nat.shiftRight_eq_div_pow, Nat.shiftRight_eq_div_pow]
      exact h
    have ha : a.testBit i = (a >>> 4).testBit (i - 4) := by
      rw [Nat.testBit_shiftRight]
      congr 1
      omega
    have hb : b.testBit i = (b >>> 4).testBit (i - 4) := by
      rw [Nat.testBit_shiftRight]
      congr 1
      omega
    rw [ha, hb, hs]

theorem control_update_chan (port : Option CFloat) (prev : CFloat) (ctrl : Int) :
    ∀ c ∈ (control_update port prev ctrl).2, c.chan = some 0 := by
  unfold control_update
  cases port with
  | none => simp
  | some v => by_cases hv : v.ne prev = true <;> simp [hv, Call.chan]

/-- C20: two events that differ only in the low nibble of the status byte
(`msg[0] / 16`, the type, `msg[1]` and `msg[2]` agree) make the event loop
issue the same calls; every call it issues for an event is on channel 0; so
is every call of the six control blocks, and every controller, bank-select
and program-change call of `handle_program_change`. -/
theorem calls_on_channel_zero (midi_Event : Nat) (ev ev' : Event)
    (hty : ev'.body_type = ev.body_type) (hhigh : ev'.msg0 / 16 = ev.msg0 / 16)
    (h1 : ev'.msg1 = ev.msg1) (h2 : ev'.msg2 = ev.msg2) :
    process_event midi_Event ev' = process_event midi_Event ev
    ∧ (∀ c ∈ process_event midi_Event ev, c.chan = some 0)
    ∧ (∀ (plugin : Plugin) (ports : Ports), ∀ c ∈ (dispatch_controls plugin ports).2,
        c.chan = some 0)
    ∧ (∀ (plugin : Plugin) (program : Int), ∀ c ∈ handle_program_change plugin program,
        c.is_cc = true ∨ c.is_select = true → c.chan = some 0) := by
  refine ⟨?_, ?_, ?_, ?_⟩
  · unfold process_event
    rw [hty, h1, h2, and_F0_of_div_16 _ _ hhigh]
  · intro c hc
    unfold process_event at hc
    split_ifs at hc <;> simp at hc <;> subst hc <;> rfl
  · intro plugin ports c hc
    simp only [dispatch_controls, List.mem_append] at hc
    rcases hc with ((((hc | hc) | hc) | hc) | hc) | hc <;>
      exact control_update_chan _ _ _ c hc
  · intro plugin program c hc hkind
    unfold handle_program_change at hc
    split_ifs at hc
    · simp at hc
    · simp only [List.mem_cons, List.mem_singleton, List.not_mem_nil, or_false] at hc
      rcases hc with h | h | h | h | h | h | h | h | h | h <;> subst h <;>
        first
          | rfl
          | (simp [Call.is_cc, Call.is_select] at hkind)

theorem calls_on_channel_zero_witness :
    ({ note_on_60 with msg0 := 0x9A } : Event).body_type = note_on_60.body_type
    ∧ ({ note_on_60 with msg0 := 0x9A } : Event).msg0 / 16 = note_on_60.msg0 / 16
    ∧ ({ note_on_60 with msg0 := 0x9A } : Event).msg1 = note_on_60.msg1
    ∧ ({ note_on_60 with msg0 := 0x9A } : Event).msg2 = note_on_60.msg2
    ∧ (process_event 7 { note_on_60 with msg0 := 0x9A } = process_event 7 note_on_60
      ∧ (∀ c ∈ process_event 7 note_on_60, c.chan = some 0)
      ∧ (∀ (plugin : Plugin) (ports : Ports), ∀ c ∈ (dispatch_controls plugin ports).2,
          c.chan = some 0)
      ∧ (∀ (plugin : Plugin) (program : Int), ∀ c ∈ handle_program_change plugin program,
          c.is_cc = true ∨ c.is_select = true → c.chan = some 0))
    ∧ process_event 7 { note_on_60 with msg0 := 0x9A } = [Call.noteon 0 60 100] :=
  ⟨rfl, by decide, rfl, rfl,
    calls_on_channel_zero 7 note_on_60 { note_on_60 with msg0 := 0x9A } rfl (by decide) rfl rfl,
    by decide!⟩

/-! ### Stored values and failed controller calls -/

/-- C18, as stated, fails: with the cutoff port at 2.0 the one call of the
cycle is controller 74 with value 254, which an engine that checks the range
0..127 refuses; the stored previous value nevertheless goes from 1.0 to 2.0,
and the next cycle with the port still at 2.0 sends nothing. -/
theorem shadow_updated_after_failed_cc :
    (run sample_plugin cutoff_two 0).2 = [Call.cc 0 74 254]
    ∧ range_checked_cc 0 74 254 = false
    ∧ sample_plugin.prev_cutoff = CFloat.finite 1
    ∧ (run sample_plugin cutoff_two 0).1.prev_cutoff = CFloat.finite 2
    ∧ (run (run sample_plugin cutoff_two 0).1 cutoff_two 0).2 = [] := by
  decide!

/-- C18, amended: whatever the engine answers to `fluid_synth_cc`, the stored
previous value of a control changes in a cycle only when that cycle is without
program change, the port is connected and holds a value `v` that the C
comparison `!=` finds different from the stored one, and exactly one call to
the control's controller is issued (with value `(int)(v * 127.0f)` when `v` is
not NaN); the stored value is then `v` even if the engine refused the call.
In the next cycle without program change in which the port still holds `v`,
the call is not sent again when `v` is not NaN; when `v` is NaN it is sent
again, because NaN differs from the stored NaN, and not because the engine
refused the call. -/
theorem shadow_updated_when_issued (cc_ok : Int → Int → Int → Bool)
    (plugin : Plugin) (ports : Ports) (n : Nat) (k : Control)
    (hchange : k.shadow (run plugin ports n).1 ≠ k.shadow plugin) :
    ∃ v : CFloat, k.port ports = some v ∧ v.ne (k.shadow plugin) = true
      ∧ program_switch plugin ports = none
      ∧ ((dispatch_controls plugin ports).2.filter (Call.is_cc_to k.number)).length = 1
      ∧ (∀ q : ℚ, v = CFloat.finite q →
          (dispatch_controls plugin ports).2.filter (Call.is_cc_to k.number)
            = [Call.cc 0 k.number (cc_value q)])
      ∧ k.shadow (run plugin ports n).1 = v
      ∧ ((∀ ch ctrl val : Int,
            Call.cc ch ctrl val
                ∈ (dispatch_controls plugin ports).2.filter (Call.is_cc_to k.number) →
            cc_ok ch ctrl val = false) →
          ∀ (ports' : Ports) (n' : Nat),
            program_switch (run plugin ports n).1 ports' = none → k.port ports' = some v →
            (v ≠ CFloat.nan →
              (dispatch_controls (run plugin ports n).1 ports').2.filter
                  (Call.is_cc_to k.number) = [])
            ∧ (v = CFloat.nan →
              ((dispatch_controls (run plugin ports n).1 ports').2.filter
                  (Call.is_cc_to k.number)).length = 1)
            ∧ k.shadow (run (run plugin ports n).1 ports' n').1 = v) := by
  rw [run_shadow] at hchange
  cases hsw : program_switch plugin ports with
  | some r =>
    rw [hsw] at hchange
    exact absurd rfl hchange
  | none =>
    rw [hsw] at hchange
    cases hport : k.port ports with
    | none =>
      rw [hport, control_update_none] at hchange
      exact absurd rfl hchange
    | some v =>
      rw [hport] at hchange
      by_cases hne : v.ne (k.shadow plugin) = true
      · have hshadow : k.shadow (run plugin ports n).1 = v := by
          rw [run_shadow, hsw, hport, control_update_fst]
        refine ⟨v, rfl, hne, rfl, ?_, ?_, hshadow, ?_⟩
        · rw [dispatch_controls_filter, hport, control_update_differ v _ _ hne]
          rfl
        · intro q hq
          subst hq
          rw [dispatch_controls_filter, hport, control_update_differ _ _ _ hne]
          rfl
        · intro _ ports' n' hidle' hport'
          refine ⟨fun hnn => ?_, fun hnan => ?_, ?_⟩
          · rw [dispatch_controls_filter, hport', control_update_same v _ _ hnn hshadow.symm]
          · subst hnan
            rw [dispatch_controls_filter, hport', control_update_nan]
            rfl
          · rw [run_shadow, hidle', hport', control_update_fst]
      · rw [control_update_fst] at hchange
        exact absurd (CFloat.eq_of_not_ne v _ hne) hchange

theorem shadow_updated_when_issued_witness :
    Control.cutoff.shadow (run sample_plugin cutoff_two 0).1 ≠ Control.cutoff.shadow sample_plugin
    ∧ (∃ v : CFloat, Control.cutoff.port cutoff_two = some v
        ∧ v.ne (Control.cutoff.shadow sample_plugin) = true
        ∧ program_switch sample_plugin cutoff_two = none
        ∧ ((dispatch_controls sample_plugin cutoff_two).2.filter
              (Call.is_cc_to Control.cutoff.number)).length = 1
        ∧ (∀ q : ℚ, v = CFloat.finite q →
            (dispatch_controls sample_plugin cutoff_two).2.filter
                (Call.is_cc_to Control.cutoff.number)
              = [Call.cc 0 Control.cutoff.number (cc_value q)])
        ∧ Control.cutoff.shadow (run sample_plugin cutoff_two 0).1 = v
        ∧ ((∀ ch ctrl val : Int,
              Call.cc ch ctrl val
                  ∈ (dispatch_controls sample_plugin cutoff_two).2.filter
                      (Call.is_cc_to Control.cutoff.number) →
              range_checked_cc ch ctrl val = false) →
            ∀ (ports' : Ports) (n' : Nat),
              program_switch (run sample_plugin cutoff_two 0).1 ports' = none →
              Control.cutoff.port ports' = some v →
              (v ≠ CFloat.nan →
                (dispatch_controls (run sample_plugin cutoff_two 0).1 ports').2.filter
                    (Call.is_cc_to Control.cutoff.number) = [])
              ∧ (v = CFloat.nan →
                ((dispatch_controls (run sample_plugin cutoff_two 0).1 ports').2.filter
                    (Call.is_cc_to Control.cutoff.number)).length = 1)
              ∧ Control.cutoff.shadow (run (run sample_plugin cutoff_two 0).1 ports' n').1 = v))
    ∧ (∀ ch ctrl val : Int,
        Call.cc ch ctrl val
            ∈ (dispatch_controls sample_plugin cutoff_two).2.filter
                (Call.is_cc_to Control.cutoff.number) →
        range_checked_cc ch ctrl val = false) :=
  ⟨by decide!,
    shadow_updated_when_issued range_checked_cc sample_plugin cutoff_two 0 Control.cutoff
      (by decide!),
    by
      have h : (dispatch_controls sample_plugin cutoff_two).2.filter
          (Call.is_cc_to Control.cutoff.number) = [Call.cc 0 74 254] := by decide!
      intro ch ctrl val hmem
      rw [h] at hmem
      simp only [List.mem_singleton, Call.cc.injEq] at hmem
      obtain ⟨rfl, rfl, rfl⟩ := hmem
      decide⟩

/-! ### Descriptor generator -/

theorem fill_fold_gen {α : Type} (P : Nat → Nat → Bool) (mk : Nat → Nat → α)
    (l : List (Nat × Nat)) :
    ∀ (pre rest : List α),
      (l.filter (fun x => P x.1 x.2)).length ≤ rest.length →
      l.foldl (fun (st : Nat × List α) x =>
          if P x.1 x.2 then (st.1 + 1, st.2.set st.1 (mk x.1 x.2)) else st)
          (pre.length, pre ++ rest)
        = (pre.length + (l.filter (fun x => P x.1 x.2)).length,
            pre ++ (l.filter (fun x => P x.1 x.2)).map (fun x => mk x.1 x.2)
              ++ rest.drop (l.filter (fun x => P x.1 x.2)).length) := by
  induction l with
  | nil => intro pre rest _; simp
  | cons x l ih =>
    intro pre rest hlen
    by_cases hx : P x.1 x.2 = true
    · simp only [List.filter_cons_of_pos, hx, List.length_cons] at hlen
      cases rest with
      | nil => simp at hlen
      | cons r rest =>
        simp only [List.length_cons, Nat.add_le_add_iff_right] at hlen
        have hset : (pre ++ r :: rest).set pre.length (mk x.1 x.2)
            = (pre ++ [mk x.1 x.2]) ++ rest := by
          simp [List.set_append]
        have h := ih (pre ++ [mk x.1 x.2]) rest hlen
        simp only [List.length_append, List.length_singleton] at h
        simp only [List.foldl_cons, hx, if_true, hset, List.filter_cons_of_pos,
          List.length_cons, List.map_cons, List.drop_succ_cons]
        rw [h]
        refine Prod.ext ?_ ?_
        · simp only; omega
        · simp
    · have hf : (x :: l).filter (fun x => P x.1 x.2) = l.filter (fun x => P x.1 x.2) := by
        simp [List.filter_cons, hx]
      rw [hf] at hlen ⊢
      simp only [List.foldl_cons, hx, if_false]
      exact ih pre rest hlen

theorem generator_count_eq (P : Nat → Nat → Bool) : generator_count P = count_pass P := rfl

theorem generator_fill_eq (P : Nat → Nat → Bool) (name : Nat → Nat → String) :
    generator_fill P name
        (List.replicate (generator_count P) { bank := 0, prog := 0, name := "" })
      = (generator_count P, (preset_grid.filter (fun x => P x.1 x.2)).map
          (fun x => ({ bank := (x.1 : Int), prog := (x.2 : Int), name := name x.1 x.2 }
            : PresetMapping))) := by
  unfold generator_fill
  rw [foldl_nested (fun (st : Nat × List PresetMapping) bank prog =>
      if P bank prog then
        (st.1 + 1,
          st.2.set st.1 { bank := (bank : Int), prog := (prog : Int), name := name bank prog })
      else st)]
  have h := fill_fold_gen P
    (fun bank prog =>
      ({ bank := (bank : Int), prog := (prog : Int), name := name bank prog } : PresetMapping))
    preset_grid []
    (List.replicate (generator_count P) { bank := 0, prog := 0, name := "" })
    (by simp [generator_count_eq, count_pass_eq])
  simp only [List.length_nil, List.nil_append, Nat.zero_add] at h
  unfold preset_grid at h
  rw [h]
  simp [generator_count_eq, count_pass_eq, preset_grid]

theorem generate_ok (env : GeneratorEnv) (g : Generated) (hgen : generate env = some g) :
    g.total_presets = count_pass env.get_preset
    ∧ 1 ≤ g.total_presets
    ∧ g.program_maximum = (g.total_presets : Int) - 1
    ∧ g.preset_mappings
        = (preset_grid.filter (fun x => env.get_preset x.1 x.2)).map
            (fun x => ({ bank := (x.1 : Int), prog := (x.2 : Int),
                         name := env.preset_name x.1 x.2 } : PresetMapping))
    ∧ g.scale_points
        = (List.range g.total_presets).map (fun i =>
            ((g.preset_mappings.getD i { bank := 0, prog := 0, name := "" }).name, (i : Int)))
    := by
  unfold generate at hgen
  simp only at hgen
  split_ifs at hgen with h1 h2 h3 h4 h5 h6 h7
  simp only [Option.some.injEq] at hgen
  rw [← hgen]
  simp only [generator_fill_eq]
  exact ⟨generator_count_eq _, Nat.one_le_iff_ne_zero.mpr h4, trivial, trivial, trivial⟩

/-- C16: when the generator succeeds and the runtime load succeeds on sound
banks with the same preset query, the generator's `total_presets` is the
runtime's `program_count` (and is at least 1), `preset_mappings[i]` has the
bank and program of the runtime's `programs[i]` for every `i`, the scale point
written for entry `i` carries that entry's name and the value `i`, there is
one scale point per entry, and the declared maximum of the program port is
`total_presets - 1`. -/
theorem generator_runtime_aligned (sf : SoundFont) (plugin : Plugin) (env : GeneratorEnv)
    (g : Generated) (hsame : env.get_preset = sf.get_preset)
    (hload : 0 ≤ (load_soundfont sf plugin).1) (hgen : generate env = some g) :
    (g.total_presets : Int) = (load_soundfont sf plugin).2.program_count
    ∧ 1 ≤ g.total_presets
    ∧ g.preset_mappings.length = g.total_presets
    ∧ g.preset_mappings.map (fun m => ({ bank := m.bank, prog := m.prog } : BankProgram))
        = (load_soundfont sf plugin).2.programs
    ∧ (∀ (i : Nat) (m : PresetMapping), g.preset_mappings[i]? = some m →
        (load_soundfont sf plugin).2.programs[i]? = some { bank := m.bank, prog := m.prog }
        ∧ g.scale_points[i]? = some (m.name, (i : Int)))
    ∧ g.scale_points.length = g.total_presets
    ∧ g.program_maximum = (g.total_presets : Int) - 1 := by
  obtain ⟨hcount, hpos, hmax, hmap, hscale⟩ := generate_ok env g hgen
  obtain ⟨hc, hp⟩ := load_soundfont_ok sf plugin hload
  have hlen : g.preset_mappings.length = g.total_presets := by
    rw [hmap, List.length_map, hcount, count_pass_eq]
  have hprog : g.preset_mappings.map (fun m => ({ bank := m.bank, prog := m.prog } : BankProgram))
      = (load_soundfont sf plugin).2.programs := by
    rw [hp, hmap, List.map_map, hsame]
    rfl
  refine ⟨?_, hpos, hlen, hprog, ?_, ?_, hmax⟩
  · rw [hc, hcount, hsame]
  · intro i m hm
    have hi : i < g.preset_mappings.length := by
      by_contra hcon
      rw [List.getElem?_eq_none (not_lt.mp hcon)] at hm
      exact Option.noConfusion hm
    constructor
    · rw [← hprog, List.getElem?_map, hm]
      rfl
    · rw [hscale, List.getElem?_map, List.getElem?_range (by rw [← hlen]; exact hi)]
      simp only [Option.map_some', List.getD_eq_getElem?_getD, hm, Option.getD_some]
  · rw [hscale, List.length_map, List.length_range]

theorem generator_runtime_aligned_witness :
    sample_generator_env.get_preset = sample_soundfont.get_preset
    ∧ 0 ≤ (load_soundfont sample_soundfont Plugin.zeroed).1
    ∧ generate sample_generator_env = some sample_generated
    ∧ ((sample_generated.total_presets : Int)
          = (load_soundfont sample_soundfont Plugin.zeroed).2.program_count
      ∧ 1 ≤ sample_generated.total_presets
      ∧ sample_generated.preset_mappings.length = sample_generated.total_presets
      ∧ sample_generated.preset_mappings.map
            (fun m => ({ bank := m.bank, prog := m.prog } : BankProgram))
          = (load_soundfont sample_soundfont Plugin.zeroed).2.programs
      ∧ (∀ (i : Nat) (m : PresetMapping), sample_generated.preset_mappings[i]? = some m →
          (load_soundfont sample_soundfont Plugin.zeroed).2.programs[i]?
            = some { bank := m.bank, prog := m.prog }
          ∧ sample_generated.scale_points[i]? = some (m.name, (i : Int)))
      ∧ sample_generated.scale_points.length = sample_generated.total_presets
      ∧ sample_generated.program_maximum = (sample_generated.total_presets : Int) - 1) :=
  ⟨rfl, by decide!, by decide!,
    generator_runtime_aligned sample_soundfont Plugin.zeroed sample_generator_env
      sample_generated rfl (by decide!) (by decide!)⟩

/-! ### Exactness of the program request -/

theorem rne_intCast (z : Int) : rne (z : ℚ) = z := by
  unfold rne
  simp

theorem le_ilog2_of_le_abs (q : ℚ) (e : Int) (h : (2 : ℚ) ^ e ≤ |q|) : e ≤ ilog2 q := by
  have h2 : (2 : ℚ) ^ e < (2 : ℚ) ^ (ilog2 q + 1) :=
    lt_of_le_of_lt h (abs_lt_two_zpow_ilog2_succ q)
  have := (zpow_lt_zpow_iff_right₀ (by norm_num : (1 : ℚ) < 2)).mp h2
  omega

/-- A value that is an integer multiple of a power of two not below the
rounding scale is returned unchanged by the rounding. -/
theorem fp_round_exact (prec : Nat) (emin : Int) (q : ℚ) (a t : Int)
    (hq : q = (a : ℚ) * (2 : ℚ) ^ t)
    (hs : q ≠ 0 → max (ilog2 q - ((prec : Int) - 1)) emin ≤ t) :
    fp_round prec emin q = q := by
  unfold fp_round
  split_ifs with h0
  · exact h0.symm
  · simp only
    have hs0 := hs h0
    generalize max (ilog2 q - ((prec : Int) - 1)) emin = s at hs0
    obtain ⟨m, hm⟩ : ∃ m : Nat, t = s + (m : Int) := ⟨(t - s).toNat, by omega⟩
    have h2 : (2 : ℚ) ≠ 0 := by norm_num
    have hdiv : q / (2 : ℚ) ^ s = ((a * 2 ^ m : Int) : ℚ) := by
      rw [hq, hm, zpow_add₀ h2, zpow_natCast]
      push_cast
      field_simp
      ring
    rw [hdiv, rne_intCast, hq, hm, zpow_add₀ h2, zpow_natCast]
    push_cast
    ring

theorem f32_repr (x : ℚ) (hrep : f32 x = x) (hx : x ≠ 0) :
    ∃ a : Int, x = (a : ℚ) * (2 : ℚ) ^ (max (ilog2 x - 23) (-149)) := by
  unfold f32 fp_round at hrep
  rw [if_neg hx] at hrep
  simp only [Nat.cast_ofNat] at hrep
  refine ⟨rne (x / (2 : ℚ) ^ (max (ilog2 x - (24 - 1)) (-149))), ?_⟩
  have h23 : ((24 : Int) - 1) = 23 := by norm_num
  rw [h23] at hrep ⊢
  exact hrep.symm

theorem rescale_down (x : ℚ) (a t : Int) (j : Nat) (hx : x = (a : ℚ) * (2 : ℚ) ^ t)
    (ht : -(j : Int) ≤ t) : ∃ b : Int, x = (b : ℚ) * (2 : ℚ) ^ (-(j : Int)) := by
  obtain ⟨m, hm⟩ : ∃ m : Nat, t = -(j : Int) + (m : Int) := ⟨(t + j).toNat, by omega⟩
  refine ⟨a * 2 ^ m, ?_⟩
  rw [hx, hm, zpow_add₀ (by norm_num : (2 : ℚ) ≠ 0), zpow_natCast]
  push_cast
  ring

/-- Rounding does not cross a bound that is a multiple of a power of two not
below the rounding scale: from above. -/
theorem fp_round_le_dyadic (prec : Nat) (emin : Int) (q : ℚ) (z : Int) (j : Nat)
    (hs : q ≠ 0 → max (ilog2 q - ((prec : Int) - 1)) emin ≤ -(j : Int))
    (h : q ≤ (z : ℚ) * (2 : ℚ) ^ (-(j : Int))) (hz : 0 ≤ z) :
    fp_round prec emin q ≤ (z : ℚ) * (2 : ℚ) ^ (-(j : Int)) := by
  unfold fp_round
  split_ifs with hq
  · have : (0 : ℚ) ≤ (z : ℚ) := by exact_mod_cast hz
    positivity
  · simp only
    have hs0 := hs hq
    generalize max (ilog2 q - ((prec : Int) - 1)) emin = s at hs0
    obtain ⟨m, rfl⟩ : ∃ m : Nat, s = -(j : Int) - (m : Int) := ⟨(-(j : Int) - s).toNat, by omega⟩
    have h2 : (2 : ℚ) ≠ 0 := by norm_num
    have hpos : (0 : ℚ) < (2 : ℚ) ^ (-(j : Int) - (m : Int)) := by positivity
    have hsplit : (2 : ℚ) ^ (-(j : Int)) = (2 : ℚ) ^ (-(j : Int) - (m : Int)) * (2 : ℚ) ^ m := by
      rw [← zpow_natCast, ← zpow_add₀ h2]
      congr 1
      ring
    have hq2 : q / (2 : ℚ) ^ (-(j : Int) - (m : Int)) ≤ ((z * 2 ^ m : Int) : ℚ) := by
      rw [div_le_iff₀ hpos]
      push_cast
      calc q ≤ (z : ℚ) * (2 : ℚ) ^ (-(j : Int)) := h
        _ = (z : ℚ) * 2 ^ m * (2 : ℚ) ^ (-(j : Int) - (m : Int)) := by rw [hsplit]; ring
    have hr : (rne (q / (2 : ℚ) ^ (-(j : Int) - (m : Int))) : ℚ) ≤ ((z * 2 ^ m : Int) : ℚ) := by
      exact_mod_cast rne_le _ _ hq2
    calc (rne (q / (2 : ℚ) ^ (-(j : Int) - (m : Int))) : ℚ) * (2 : ℚ) ^ (-(j : Int) - (m : Int))
        ≤ ((z * 2 ^ m : Int) : ℚ) * (2 : ℚ) ^ (-(j : Int) - (m : Int)) :=
          mul_le_mul_of_nonneg_right hr hpos.le
      _ = (z : ℚ) * (2 : ℚ) ^ (-(j : Int)) := by
          push_cast
          rw [hsplit]
          ring

theorem f64_scale_le (q : ℚ) (e : Int) (h : |q| < (2 : ℚ) ^ (e + 53)) (he : -1074 ≤ e)
    (hq : q ≠ 0) : max (ilog2 q - (((53 : Nat) : Int) - 1)) (-1074) ≤ e := by
  have := ilog2_lt_of_abs_lt q hq (e + 53) h
  simp only [Nat.cast_ofNat]
  omega
theorem f64_half_sum_small (x : ℚ) (hx : |x| < 1/4) :
    (0 : ℚ) ≤ f64 (x + 1/2) ∧ f64 (x + 1/2) ≤ 3/4 := by
  have hlo : -(1/4 : ℚ) < x := (abs_lt.mp hx).1
  have hhi : x < 1/4 := (abs_lt.mp hx).2
  have hq0 : (0 : ℚ) ≤ x + 1/2 := by linarith
  have habs : |x + 1/2| = x + 1/2 := abs_of_nonneg hq0
  constructor
  · have h := le_fp_round_int 53 (-1074) (x + 1/2) 0
      (f64_scale_le (x + 1/2) 0 (by rw [habs]; norm_num; linarith) (by norm_num))
      (by simpa using hq0)
    simpa using h
  · have h := fp_round_le_dyadic 53 (-1074) (x + 1/2) 3 2
      (f64_scale_le (x + 1/2) (-(2 : Nat)) (by rw [habs]; norm_num; linarith) (by norm_num))
      (by norm_num; linarith) (by norm_num)
    have h34 : ((3 : Int) : ℚ) * (2 : ℚ) ^ (-((2 : Nat) : Int)) = 3/4 := by norm_num
    rw [h34] at h
    exact h

theorem f64_half_sum_exact (x : ℚ) (hrep : f32 x = x) (hbig : 1/4 ≤ |x|)
    (hrange : |x + 1/2| < 2 ^ 31) : f64 (x + 1/2) = x + 1/2 := by
  have hx0 : x ≠ 0 := by
    intro h
    rw [h] at hbig
    norm_num at hbig
  obtain ⟨a, ha⟩ := f32_repr x hrep hx0
  by_cases hq : |x + 1/2| < 2 ^ 28
  · have hlog : (-2 : Int) ≤ ilog2 x := le_ilog2_of_le_abs x (-2) (by norm_num; linarith)
    obtain ⟨b, hb⟩ := rescale_down x a _ 25 ha (by
      have := le_max_left (ilog2 x - 23) (-149)
      push_cast
      omega)
    have hsum : x + 1/2 = ((b + 2 ^ 24 : Int) : ℚ) * (2 : ℚ) ^ (-((25 : Nat) : Int)) := by
      conv_lhs => rw [hb]
      push_cast
      norm_num
      ring
    exact fp_round_exact 53 (-1074) (x + 1/2) (b + 2 ^ 24) (-((25 : Nat) : Int)) hsum
      (f64_scale_le (x + 1/2) (-((25 : Nat) : Int)) (by norm_num; exact hq) (by norm_num))
  · have hq28 : (2 : ℚ) ^ 28 ≤ |x + 1/2| := not_lt.mp hq
    have hx27 : (2 : ℚ) ^ 27 ≤ |x| := by
      have h1 : |x + 1/2| ≤ |x| + |(1/2 : ℚ)| := abs_add x (1/2)
      have h2 : |(1/2 : ℚ)| = 1/2 := by norm_num
      rw [h2] at h1
      norm_num at hq28 ⊢
      linarith
    have hlog : (27 : Int) ≤ ilog2 x := le_ilog2_of_le_abs x 27 (by norm_num; norm_num at hx27; exact hx27)
    obtain ⟨b, hb⟩ := rescale_down x a _ 0 ha (by
      have := le_max_left (ilog2 x - 23) (-149)
      push_cast
      omega)
    have hb' : x = (b : ℚ) := by simpa using hb
    have hsum : x + 1/2 = ((2 * b + 1 : Int) : ℚ) * (2 : ℚ) ^ (-((1 : Nat) : Int)) := by
      push_cast
      rw [hb']
      norm_num
      ring
    exact fp_round_exact 53 (-1074) (x + 1/2) (2 * b + 1) (-((1 : Nat) : Int)) hsum
      (f64_scale_le (x + 1/2) (-((1 : Nat) : Int)) (by norm_num; norm_num at hrange; linarith)
        (by norm_num))

/-- For a port value that is a `float` and whose request fits an `int`, the
index requested is the exact sum `x + 0.5` with its fractional part
discarded: the `double` addition does not change the outcome. -/
theorem new_program_eq_trunc (x : ℚ) (hrep : f32 x = x) (hrange : |x + 1/2| < 2 ^ 31) :
    new_program x = c_int (x + 1/2) := by
  unfold new_program
  by_cases hx : |x| < 1/4
  · obtain ⟨h0, h1⟩ := f64_half_sum_small x hx
    have hlo : -(1/4 : ℚ) < x := (abs_lt.mp hx).1
    have hhi : x < 1/4 := (abs_lt.mp hx).2
    have hq0 : (0 : ℚ) ≤ x + 1/2 := by linarith
    unfold c_int
    rw [if_pos h0, if_pos hq0, Int.floor_eq_iff.mpr ⟨by simpa using h0, by norm_num; linarith⟩,
      Int.floor_eq_iff.mpr ⟨by simpa using hq0, by norm_num; linarith⟩]
  · rw [f64_half_sum_exact x hrep (not_lt.mp hx) hrange]

theorem c_int_half_up (x : ℚ) (h : -(1/2 : ℚ) ≤ x) : c_int (x + 1/2) = round x := by
  unfold c_int
  rw [if_pos (by linarith), round_eq]

theorem c_int_half_zero (x : ℚ) (h1 : -(3/2 : ℚ) < x) (h2 : x < -(1/2 : ℚ)) :
    c_int (x + 1/2) = 0 := by
  unfold c_int
  rw [if_neg (by linarith), Int.ceil_eq_iff]
  constructor
  · norm_num; linarith
  · norm_num; linarith

theorem c_int_half_neg (x : ℚ) (h : x ≤ -(3/2 : ℚ)) : c_int (x + 1/2) < 0 := by
  unfold c_int
  rw [if_neg (by linarith)]
  have : ⌈x + 1/2⌉ ≤ -1 := Int.ceil_le.mpr (by norm_num; linarith)
  omega
theorem f32_float_minus_0_7 : f32 float_minus_0_7 = float_minus_0_7 := by
  have habs : |float_minus_0_7| < (2 : ℚ) ^ (0 : Int) := by
    rw [abs_lt]
    norm_num [float_minus_0_7]
  refine fp_round_exact 24 (-149) float_minus_0_7 (-11744051) (-24)
    (by norm_num [float_minus_0_7]) ?_
  intro h0
  have := ilog2_lt_of_abs_lt float_minus_0_7 h0 0 habs
  simp only [Nat.cast_ofNat]
  omega

theorem float_minus_0_7_range : |float_minus_0_7 + 1/2| < 2 ^ 31 := by
  rw [abs_lt]
  norm_num [float_minus_0_7]

theorem new_program_float_minus_0_7 : new_program float_minus_0_7 = 0 := by
  rw [new_program_eq_trunc _ f32_float_minus_0_7 float_minus_0_7_range]
  exact c_int_half_zero _ (by norm_num [float_minus_0_7]) (by norm_num [float_minus_0_7])

/-- C13, as stated, fails: the port value -0.7 rounds to the nearest integer
-1, yet `run` computes the request `(int)(-0.7 + 0.5) = 0`, which differs from
the current program -1 and is not negative, so the cycle switches to program
0 and makes the calls of the reset sequence.  The same holds for -0.75. -/
theorem negative_request_selects_program_zero :
    f32 float_minus_0_7 = float_minus_0_7
    ∧ round float_minus_0_7 = -1
    ∧ new_program float_minus_0_7 = 0
    ∧ sample_plugin.current_program = -1
    ∧ program_switch sample_plugin request_minus_0_7 = some 0
    ∧ (run sample_plugin request_minus_0_7 0).2
        = [ Call.all_notes_off (-1), Call.all_sounds_off (-1),
            Call.cc 0 74 127, Call.cc 0 71 0, Call.cc 0 73 0,
            Call.cc 0 75 0, Call.cc 0 70 0, Call.cc 0 72 0,
            Call.bank_select 0 0, Call.program_change 0 0 ]
    ∧ (run sample_plugin request_minus_0_7 0).1.current_program = 0
    ∧ round (-(3/4) : ℚ) = -1
    ∧ new_program (-(3/4)) = 0 := by
  have hsw : program_switch sample_plugin request_minus_0_7 = some 0 := by
    rw [program_switch_of_request sample_plugin request_minus_0_7 float_minus_0_7 0 rfl
      new_program_float_minus_0_7 (le_refl 0)]
    decide
  have hrun := run_switch sample_plugin request_minus_0_7 0 0 hsw
  refine ⟨f32_float_minus_0_7, by decide!, new_program_float_minus_0_7, by decide, hsw, ?_, ?_,
    by decide!, by decide!⟩
  · rw [hrun]
    decide!
  · rw [hrun]

/-- C13, amended: for a connected program port holding a `float` `x` whose
request fits an `int`, `run` switches exactly when `r = (int)(x + 0.5)`
differs from `current_program` and is not negative; the switch goes to `r`.
That `r` is `x + 0.5` with its fractional part discarded: the nearest integer
(a tie upwards) for `x ≥ -0.5`, the value 0 for every `x` strictly between
-1.5 and -0.5, and negative, so that no switch happens, for `x ≤ -1.5`. -/
theorem program_switch_truncates (plugin : Plugin) (ports : Ports) (x : ℚ)
    (hport : ports.program_port = some x) (hrep : f32 x = x)
    (hrange : |x + 1/2| < 2 ^ 31) :
    (∀ r : Int, program_switch plugin ports = some r ↔
        r = new_program x ∧ r ≠ plugin.current_program ∧ 0 ≤ r)
    ∧ (∀ (r : Int) (n : Nat), program_switch plugin ports = some r →
        (run plugin ports n).1.current_program = r
        ∧ (run plugin ports n).2
            = handle_program_change plugin r ++ run_level ports
                ++ event_loop plugin.midi_Event ports.events_in ++ render_loop n 0)
    ∧ new_program x = c_int (x + 1/2)
    ∧ (-(1/2 : ℚ) ≤ x → new_program x = round x)
    ∧ (-(3/2 : ℚ) < x → x < -(1/2 : ℚ) → new_program x = 0)
    ∧ (x ≤ -(3/2 : ℚ) → new_program x < 0 ∧ program_switch plugin ports = none) := by
  have htr := new_program_eq_trunc x hrep hrange
  have hiff : ∀ r : Int, program_switch plugin ports = some r ↔
      r = new_program x ∧ r ≠ plugin.current_program ∧ 0 ≤ r := by
    intro r
    unfold program_switch
    rw [hport]
    simp only
    by_cases hc : new_program x ≠ plugin.current_program ∧ new_program x ≥ 0
    · rw [if_pos hc, Option.some.injEq]
      constructor
      · intro h
        subst h
        exact ⟨rfl, hc.1, hc.2⟩
      · intro h
        exact h.1.symm
    · rw [if_neg hc]
      constructor
      · intro h
        exact Option.noConfusion h
      · rintro ⟨h1, h2, h3⟩
        subst h1
        exact absurd ⟨h2, h3⟩ hc
  refine ⟨hiff, ?_, htr, ?_, ?_, ?_⟩
  · intro r n hsw
    rw [run_switch plugin ports n r hsw]
    exact ⟨rfl, rfl⟩
  · intro h
    rw [htr, c_int_half_up x h]
  · intro h1 h2
    rw [htr, c_int_half_zero x h1 h2]
  · intro h
    have hneg : new_program x < 0 := by
      rw [htr]
      exact c_int_half_neg x h
    refine ⟨hneg, ?_⟩
    cases hsw : program_switch plugin ports with
    | none => rfl
    | some r =>
      obtain ⟨h1, _, h3⟩ := (hiff r).mp hsw
      omega

theorem program_switch_truncates_witness :
    request_minus_0_7.program_port = some float_minus_0_7
    ∧ f32 float_minus_0_7 = float_minus_0_7
    ∧ |float_minus_0_7 + 1/2| < 2 ^ 31
    ∧ ((∀ r : Int, program_switch sample_plugin request_minus_0_7 = some r ↔
          r = new_program float_minus_0_7 ∧ r ≠ sample_plugin.current_program ∧ 0 ≤ r)
      ∧ (∀ (r : Int) (n : Nat), program_switch sample_plugin request_minus_0_7 = some r →
          (run sample_plugin request_minus_0_7 n).1.current_program = r
          ∧ (run sample_plugin request_minus_0_7 n).2
              = handle_program_change sample_plugin r ++ run_level request_minus_0_7
                  ++ event_loop sample_plugin.midi_Event request_minus_0_7.events_in
                  ++ render_loop n 0)
      ∧ new_program float_minus_0_7 = c_int (float_minus_0_7 + 1/2)
      ∧ (-(1/2 : ℚ) ≤ float_minus_0_7 → new_program float_minus_0_7 = round float_minus_0_7)
      ∧ (-(3/2 : ℚ) < float_minus_0_7 → float_minus_0_7 < -(1/2 : ℚ) →
          new_program float_minus_0_7 = 0)
      ∧ (float_minus_0_7 ≤ -(3/2 : ℚ) →
          new_program float_minus_0_7 < 0
          ∧ program_switch sample_plugin request_minus_0_7 = none)) :=
  ⟨rfl, f32_float_minus_0_7, float_minus_0_7_range,
    program_switch_truncates sample_plugin request_minus_0_7 float_minus_0_7 rfl
      f32_float_minus_0_7 float_minus_0_7_range⟩

/-! ### Bounds of the second pass -/

theorem stores_fold_eq (P : Nat → Nat → Bool) (l : List (Nat × Nat)) :
    ∀ (idx : Nat) (acc : List (Nat × BankProgram)),
      l.foldl (fun (st : Nat × List (Nat × BankProgram)) x =>
          if P x.1 x.2 then
            (st.1 + 1, st.2 ++ [(st.1, { bank := (x.1 : Int), prog := (x.2 : Int) })])
          else st) (idx, acc)
        = (idx + (l.filter (fun x => P x.1 x.2)).length,
            acc ++ List.enumFrom idx ((l.filter (fun x => P x.1 x.2)).map
              (fun x => ({ bank := (x.1 : Int), prog := (x.2 : Int) } : BankProgram)))) := by
  induction l with
  | nil => intro idx acc; simp
  | cons x l ih =>
    intro idx acc
    by_cases hx : P x.1 x.2 = true
    · simp only [List.foldl_cons, hx, if_true, List.filter_cons_of_pos, List.length_cons,
        List.map_cons, List.enumFrom_cons]
      rw [ih]
      refine Prod.ext ?_ ?_
      · simp only; omega
      · simp
    · have hf : (x :: l).filter (fun x => P x.1 x.2) = l.filter (fun x => P x.1 x.2) := by
        simp [List.filter_cons, hx]
      rw [hf]
      simp only [List.foldl_cons, hx, if_false]
      exact ih idx acc

theorem fill_fold_as_stores (P : Nat → Nat → Bool) (l : List (Nat × Nat)) :
    ∀ (idx : Nat) (programs : List BankProgram),
      l.foldl (fun (st : Nat × List BankProgram) x =>
          if P x.1 x.2 then
            (st.1 + 1, st.2.set st.1 { bank := (x.1 : Int), prog := (x.2 : Int) })
          else st) (idx, programs)
        = (idx + (l.filter (fun x => P x.1 x.2)).length,
            (List.enumFrom idx ((l.filter (fun x => P x.1 x.2)).map
              (fun x => ({ bank := (x.1 : Int), prog := (x.2 : Int) } : BankProgram)))).foldl
              (fun table s => table.set s.1 s.2) programs) := by
  induction l with
  | nil => intro idx programs; simp
  | cons x l ih =>
    intro idx programs
    by_cases hx : P x.1 x.2 = true
    · simp only [List.foldl_cons, hx, if_true, List.filter_cons_of_pos, List.length_cons,
        List.map_cons, List.enumFrom_cons]
      rw [ih]
      refine Prod.ext ?_ rfl
      simp only; omega
    · have hf : (x :: l).filter (fun x => P x.1 x.2) = l.filter (fun x => P x.1 x.2) := by
        simp [List.filter_cons, hx]
      rw [hf]
      simp only [List.foldl_cons, hx, if_false]
      exact ih idx programs

theorem fill_pass_stores_eq (P : Nat → Nat → Bool) :
    fill_pass_stores P
      = ((preset_grid.filter (fun x => P x.1 x.2)).length,
          List.enumFrom 0 ((preset_grid.filter (fun x => P x.1 x.2)).map
            (fun x => ({ bank := (x.1 : Int), prog := (x.2 : Int) } : BankProgram)))) := by
  unfold fill_pass_stores
  rw [foldl_nested (fun (st : Nat × List (Nat × BankProgram)) bank prog =>
      if P bank prog then
        (st.1 + 1,
          st.2 ++ [(st.1, ({ bank := (bank : Int), prog := (prog : Int) } : BankProgram))])
      else st)]
  have h := stores_fold_eq P preset_grid 0 []
  simp only [Nat.zero_add, List.nil_append] at h
  unfold preset_grid at h
  rw [h]
  rfl

theorem fill_pass_as_stores (P : Nat → Nat → Bool) (programs : List BankProgram) :
    fill_pass P programs
      = ((fill_pass_stores P).1,
          (fill_pass_stores P).2.foldl (fun table s => table.set s.1 s.2) programs) := by
  rw [fill_pass_stores_eq]
  unfold fill_pass
  rw [foldl_nested (fun (st : Nat × List BankProgram) bank prog =>
      if P bank prog then
        (st.1 + 1, st.2.set st.1 { bank := (bank : Int), prog := (prog : Int) })
      else st)]
  have h := fill_fold_as_stores P preset_grid 0 programs
  simp only [Nat.zero_add] at h
  unfold preset_grid at h
  rw [h]
  rfl

theorem fill_pass_table (P : Nat → Nat → Bool) (programs : List BankProgram)
    (hlen : programs.length = (preset_grid.filter (fun x => P x.1 x.2)).length) :
    (fill_pass P programs).2
      = (preset_grid.filter (fun x => P x.1 x.2)).map
          (fun x => ({ bank := (x.1 : Int), prog := (x.2 : Int) } : BankProgram)) := by
  unfold fill_pass
  rw [foldl_nested (fun (st : Nat × List BankProgram) bank prog =>
      if P bank prog then
        (st.1 + 1, st.2.set st.1 { bank := (bank : Int), prog := (prog : Int) })
      else st)]
  have h := fill_fold_eq P preset_grid [] programs (by rw [hlen])
  simp only [List.length_nil, List.nil_append, Nat.zero_add] at h
  refine (congrArg Prod.snd h).trans ?_
  simp only
  rw [← hlen, List.drop_length, List.append_nil]

theorem filter_grid_congr (P Q : Nat → Nat → Bool)
    (hsame : ∀ bank prog : Nat, bank ≤ 128 → prog ≤ 127 → Q bank prog = P bank prog) :
    preset_grid.filter (fun x => Q x.1 x.2) = preset_grid.filter (fun x => P x.1 x.2) := by
  refine List.filter_congr ?_
  intro x hx
  obtain ⟨hb, hp⟩ := (mem_preset_grid x).mp hx
  exact hsame x.1 x.2 hb hp

/-- C21: let the second pass of `load_soundfont` get, at every address of the
scan, the answer the first pass got, and let the table have the `preset_count`
entries the first pass counted.  Then the second pass is the sequence of its
stores; the indices it stores at are 0, 1, ..., `preset_count - 1` in this
order, each below `preset_count`; its final index is `preset_count`; and the
table it leaves is, entry by entry, what it stored, so that none of the
entries is left as allocated.  In `load_soundfont` that count is
`program_count` and that table is `programs`. -/
theorem fill_pass_within_table (count_query fill_query : Nat → Nat → Bool)
    (programs : List BankProgram)
    (hsame : ∀ bank prog : Nat, bank ≤ 128 → prog ≤ 127 →
      fill_query bank prog = count_query bank prog)
    (hlen : programs.length = count_pass count_query) :
    fill_pass fill_query programs
        = ((fill_pass_stores fill_query).1,
            (fill_pass_stores fill_query).2.foldl (fun table s => table.set s.1 s.2) programs)
    ∧ (∀ s ∈ (fill_pass_stores fill_query).2, s.1 < count_pass count_query)
    ∧ (fill_pass_stores fill_query).2.map Prod.fst = List.range (count_pass count_query)
    ∧ (fill_pass fill_query programs).1 = count_pass count_query
    ∧ (fill_pass fill_query programs).2 = (fill_pass_stores fill_query).2.map Prod.snd
    ∧ (fill_pass fill_query programs).2.length = count_pass count_query
    ∧ (∀ (sf : SoundFont) (plugin : Plugin), 0 ≤ (load_soundfont sf plugin).1 →
        (load_soundfont sf plugin).2.program_count = (count_pass sf.get_preset : Int)
        ∧ (load_soundfont sf plugin).2.programs
            = (fill_pass sf.get_preset
                (List.replicate (count_pass sf.get_preset) { bank := 0, prog := 0 })).2) := by
  have hfilt := filter_grid_congr count_query fill_query hsame
  have hcount := count_pass_eq count_query
  have hst := fill_pass_stores_eq fill_query
  have hidx : (fill_pass_stores fill_query).2.map Prod.fst
      = List.range (count_pass count_query) := by
    rw [hst, List.enumFrom_map_fst, List.length_map, hfilt, ← hcount, List.range_eq_range']
  have htable : (fill_pass fill_query programs).2
      = (fill_pass_stores fill_query).2.map Prod.snd := by
    rw [fill_pass_table fill_query programs (by rw [hlen, hcount, hfilt]), hst,
      List.enumFrom_map_snd]
  refine ⟨fill_pass_as_stores fill_query programs, ?_, hidx, ?_, htable, ?_, ?_⟩
  · intro s hs
    have hmem : s.1 ∈ (fill_pass_stores fill_query).2.map Prod.fst :=
      List.mem_map_of_mem Prod.fst hs
    rw [hidx] at hmem
    exact List.mem_range.mp hmem
  · rw [fill_pass_as_stores fill_query programs, hst, hfilt, ← hcount]
  · rw [htable, List.length_map, ← List.length_map (fill_pass_stores fill_query).2 Prod.fst,
      hidx, List.length_range]
  · intro sf plugin hload
    obtain ⟨hc, hp⟩ := load_soundfont_ok sf plugin hload
    refine ⟨hc, ?_⟩
    rw [hp, fill_pass_eq]

theorem fill_pass_within_table_witness :
    (∀ bank prog : Nat, bank ≤ 128 → prog ≤ 127 →
        sample_soundfont.get_preset bank prog = sample_soundfont.get_preset bank prog)
    ∧ (List.replicate 3 ({ bank := 0, prog := 0 } : BankProgram)).length
        = count_pass sample_soundfont.get_preset
    ∧ (fill_pass_stores sample_soundfont.get_preset).2.map Prod.fst
        = List.range (count_pass sample_soundfont.get_preset)
    ∧ (fill_pass sample_soundfont.get_preset
          (List.replicate 3 { bank := 0, prog := 0 })).1
        = count_pass sample_soundfont.get_preset
    ∧ fill_pass_stores sample_soundfont.get_preset
        = (3, [ (0, { bank := 0, prog := 0 }), (1, { bank := 0, prog := 1 }),
                (2, { bank := 128, prog := 0 }) ])
    ∧ count_pass sample_soundfont.get_preset = 3 := by
  have h := fill_pass_within_table sample_soundfont.get_preset sample_soundfont.get_preset
    (List.replicate 3 { bank := 0, prog := 0 }) (fun _ _ _ _ => rfl) (by decide!)
  exact ⟨fun _ _ _ _ => rfl, by decide!, h.2.2.1, h.2.2.2.1, by decide!, by decide!⟩

/-- Without the assumption of C21 the bound is lost: if the first pass finds
no preset and the second pass finds the three of the sample sound bank, the
second pass stores at the indices 0, 1, 2 of a table of 0 entries. -/
theorem fill_pass_overruns_when_queries_differ :
    count_pass (fun _ _ => false) = 0
    ∧ (fill_pass_stores sample_soundfont.get_preset).2.map Prod.fst = [0, 1, 2]
    ∧ (fill_pass sample_soundfont.get_preset []).1 = 3 := by
  decide!

end SF2LV2
